import Mathlib

/-!
Verification development for the gcbm_animation raster compositing pipeline.

The repository renders time-series geospatial rasters into per-year animation
frames.  We give a shallow embedding of the core data model and operations:

* `Raster` — a single-band raster: a nodata sentinel, the pixel grid, and the
  geotransform / projection facts the code reads (`gcbmanimation/layer/layer.py`
  reads them through `gdal.Info`).  Pixel values are rationals, standing for the
  numeric values the raster engine computes exactly.
* `Units`, `Frame` — data types of the missing `units.py` / `frame.py` modules,
  modelled from the spec.
* `Layer` — `gcbmanimation/layer/layer.py`: transformations `convert_units`,
  `reclassify`, `flatten`, `reproject`, `blend`, `render`.
* `BoundingBox` — `gcbmanimation/layer/boundingbox.py`: `min_pixel_bounds`,
  `min_geographic_bounds`, `crop`.
* `LayerCollection` — `gcbmanimation/layer/layercollection.py`: `blend`,
  `render`, `_merge_layers`.
* `Indicator._find_layers` — `gcbmanimation/indicator/indicator.py`.

External collaborators (the gdal warp/mosaic engine and the geopy geodesic
distance) are out of the spec's scope; they are passed in as an `Env` of
function parameters.  Temporary raster artifacts are identified by natural
numbers drawn from an allocation counter threaded through every operation
(`TempFileManager.mktmp` — distinct fresh paths).  The bounded worker pool of
`LayerCollection.render` computes pure functions of independent inputs, so the
embedding evaluates the stages sequentially with the same results.
-/

set_option autoImplicit false

-- The rational operations are elaborator-irreducible upstream; concrete
-- evaluations of the pipeline (witness instances) need them to reduce.
set_option allowUnsafeReducibility true
attribute [semireducible] Rat.add Rat.mul Rat.sub Rat.inv Rat.div Rat.neg

deriving instance DecidableEq for Except

namespace GcbmAnimation

/-- A single-band raster as the code observes it through the raster engine:
the declared nodata sentinel, the pixel grid (row major), the geotransform
entries the code reads (origin and pixel size in x and y), and whether the
coordinate system WKT mentions the linear unit metre. -/
structure Raster where
  nodata : ℚ
  data : List (List ℚ)
  originX : ℚ
  pixelSizeX : ℚ
  originY : ℚ
  pixelSizeY : ℚ
  metre : Bool
deriving DecidableEq

/-- Width of the raster, `raster_data.shape[1]` of a rectangular numpy array:
the length of the first row. -/
def Raster.width (r : Raster) : ℕ := (r.data.headD []).length

/-- Modelled from the spec: the `Units` enumeration of the missing
`gcbmanimation/layer/units.py` module.  Each member carries a value triple
`(perHectare, scaleFactor, label)` — `layer.py` destructures
`self._units.value` in exactly that order — and `Blank` is the
conversion-inert sentinel for dimensionless layers. -/
inductive Units where
  | Blank
  | Tc
  | Ktc
  | Mtc
  | TcPerHa
  | KtcPerHa
  | MtcPerHa
deriving DecidableEq

/-- Modelled from the spec: the value triple `(perHectare, scaleFactor, label)`
of each `Units` member. -/
def Units.value : Units → Bool × ℚ × String
  | .Blank => (false, 1, "")
  | .Tc => (false, 1, "tC")
  | .Ktc => (false, 1000, "KtC")
  | .Mtc => (false, 1000000, "MtC")
  | .TcPerHa => (true, 1, "tC/ha")
  | .KtcPerHa => (true, 1000, "KtC/ha")
  | .MtcPerHa => (true, 1000000, "MtC/ha")

/-- An interpretation: the ordered key/value pairs of the Python dict mapping
pixel value to categorical label, for example `{1: "Wildfire"}`. -/
abbrev Interpretation := List (ℚ × String)

/-- The pixel-value keys of an interpretation (`dict.keys()`). -/
def interpKeys (m : Interpretation) : List ℚ := m.map Prod.fst

/-- The label values of an interpretation (`dict.values()`). -/
def interpLabels (m : Interpretation) : List String := m.map Prod.snd

/-- Lookup of the new pixel value for a label in the inverse interpretation
`{v: k for k, v in new_interpretation.items()}`: a later dict entry overwrites
an earlier one with the same label, so the lookup finds the last match. -/
def inverseLookup (m : Interpretation) (label : String) : Option ℚ :=
  (m.reverse.find? (fun p => p.2 = label)).map Prod.fst

/-- Modelled from the spec: the `Frame` value object of the missing
`gcbmanimation/animator/frame.py` module — an immutable rendered image
tagged with a year and a physical pixel scale. -/
structure Frame where
  year : ℤ
  path : ℕ
  scale : ℚ
deriving DecidableEq

/-- Modelled from the spec: `Frame.composite(other, preserveAlpha)` layers this
frame's image over the other's, producing a new image artifact tagged with this
frame's year and scale. -/
def Frame.composite (self : Frame) (_other : Frame) (_preserveAlpha : Bool)
    (next : ℕ) : Frame × ℕ :=
  ((Frame.mk self.year next self.scale), next + 1)

/-- A layer: a raster artifact for one year with an optional categorical
interpretation and physical units (`Layer.__init__`).  The artifact path is a
natural-number identifier; the raster it refers to is carried alongside. -/
structure Layer where
  path : ℕ
  year : ℤ
  interpretation : Option Interpretation
  units : Units
  raster : Raster
deriving DecidableEq

/-- `Layer.has_interpretation`. -/
def Layer.has_interpretation (l : Layer) : Bool := l.interpretation.isSome

/-- `Layer.nodata_value`: the declared nodata sentinel of the raster (the
Python property only casts it to the band's numeric type). -/
def Layer.nodata_value (l : Layer) : ℚ := l.raster.nodata

/-- The external collaborators consumed by the pipeline, out of the spec's
scope: the geopy geodesic distance in metres between two (lat, lon) points,
and the raster engine's warp primitives — resampling one raster onto another
raster's grid, warping a raster to explicit output bounds under an optional
target projection, the plain warp used to normalize orientation, reprojection
to a named spatial reference, and the multi-input mosaic. -/
structure Env where
  distanceM : ℚ × ℚ → ℚ × ℚ → ℚ
  warpToGrid : Raster → Raster → List (List ℚ)
  warpToBounds : Raster → List ℚ → Option String → Raster
  warpFix : Raster → Raster
  warpProjection : Raster → String → Raster
  mosaic : List Raster → Raster

/-- `Layer.scale`: pixel size in metres — the absolute x pixel size if the
projection's linear unit is the metre, else the geodesic distance across one
pixel at the raster origin. -/
def Layer.scale (l : Layer) (env : Env) : ℚ :=
  if l.raster.metre then |l.raster.pixelSizeX|
  else env.distanceM (l.raster.originY, l.raster.originX)
    (l.raster.originY, l.raster.originX + l.raster.pixelSizeX)

/-- Pointwise map over a pixel grid. -/
def map2D {α β : Type} (f : α → β) (g : List (List α)) : List (List β) :=
  g.map (List.map f)

/-- Pointwise zip of two pixel grids.  The raster engine requires equal
dimensions on all inputs of one calculation; on the equal-dimension grids the
code feeds it, `zipWith` is the exact pointwise combination. -/
def zipWith2D {α β γ : Type} (f : α → β → γ) (a : List (List α))
    (b : List (List β)) : List (List γ) :=
  List.zipWith (List.zipWith f) a b

/-- The Python truth value of an int: `0` is falsy
(`if start_year and end_year` in `LayerCollection.render`). -/
def intTruthy : Option ℤ → Bool
  | none => false
  | some v => v ≠ 0

/-- State of the `BoundingBox.min_pixel_bounds` scan: running x minimum and
maximum and first/last data-row trackers. -/
structure PBState where
  xMin : ℤ
  xMax : ℤ
  yMin : ℤ
  yMax : ℤ
deriving DecidableEq

/-- Column indices of the non-nodata pixels of one row,
`np.where(row != self.nodata_value)[0]` — ascending. -/
def rowDataCols (nd : ℚ) (row : List ℚ) : List ℕ :=
  (row.enum.filter (fun p => p.2 ≠ nd)).map Prod.fst

/-- One iteration of the `min_pixel_bounds` row scan: skip an all-nodata row,
else fold the row's first/last data column into the x bounds, record the row
index as the first data row while the tracker still holds `0`, and always
record it as the last data row. -/
def pbStep (nd : ℚ) (s : PBState) (i : ℕ) (row : List ℚ) : PBState :=
  match rowDataCols nd row with
  | [] => s
  | c :: cs =>
    let xIndexMin : ℤ := ((c :: cs).foldl Nat.min c : ℕ)
    let xIndexMax : ℤ := ((c :: cs).foldl Nat.max c : ℕ)
    { xMin := if xIndexMin < s.xMin then xIndexMin else s.xMin
      xMax := if xIndexMax > s.xMax then xIndexMax else s.xMax
      yMin := if s.yMin = 0 then (i : ℤ) else s.yMin
      yMax := (i : ℤ) }

/-- The fold of the `min_pixel_bounds` row scan over a list of indexed
rows. -/
def pbFold (nd : ℚ) (rows : List (ℕ × List ℚ)) (s0 : PBState) : PBState :=
  rows.foldl (fun s p => pbStep nd s p.1 p.2) s0

/-- The full row scan of `BoundingBox.min_pixel_bounds` over the enumerated
rows, starting from `x_min = width`, `x_max = 0`, `y_min = 0`, `y_max = 0`. -/
def pbScan (nd : ℚ) (data : List (List ℚ)) : PBState :=
  pbFold nd data.enum
    (PBState.mk ((data.headD []).length : ℤ) 0 0 0)

/-- `BoundingBox.min_pixel_bounds` (on the raster's nodata sentinel and pixel
grid): the scan result padded by one pixel on every side,
`[x_min - 1, x_max + 1, y_min - 1, y_max + 1]`. -/
def minPixelBounds (nd : ℚ) (data : List (List ℚ)) : ℤ × ℤ × ℤ × ℤ :=
  let s := pbScan nd data
  (s.xMin - 1, s.xMax + 1, s.yMin - 1, s.yMax + 1)

/-- Indexed pointwise map over a pixel grid (row index, column index, value). -/
def mapIdx2D {α β : Type} (f : ℕ → ℕ → α → β) (g : List (List α)) :
    List (List β) :=
  g.enum.map (fun p => p.2.enum.map (fun q => f p.1 q.1 q.2))

/-- Semantics of a single-input `gdal_calc.Calc` invocation with an output
`NoDataValue`: `gdal_calc` evaluates the expression pointwise and then
propagates nodata — every cell at which an input equals its nodata sentinel is
overwritten with the output nodata value.  `f` is the literal expression the
caller builds. -/
def gdalCalc1 (f : ℚ → ℚ) (src : Raster) (outNd : ℚ) : List (List ℚ) :=
  map2D (fun v => if v = src.nodata then outNd else f v) src.data

/-- Sequential map threading the temporary-path allocation counter, in list
order (the worker pool gathers results in task order). -/
def statefulMap {α β : Type} (f : α → ℕ → β × ℕ) :
    List α → ℕ → List β × ℕ
  | [], n => ([], n)
  | a :: as, n =>
    let (b, n') := f a n
    let (bs, n'') := statefulMap f as n'
    (b :: bs, n'')

/-- Sequential fallible map threading the allocation counter; the first failing
task aborts the stage (task failure propagates synchronously). -/
def statefulMapE {α β : Type} (f : α → ℕ → Except String (β × ℕ)) :
    List α → ℕ → Except String (List β × ℕ)
  | [], n => .ok ([], n)
  | a :: as, n => do
    let (b, n') ← f a n
    let (bs, n'') ← statefulMapE f as n'
    .ok (b :: bs, n'')

/-- Every other element of a list starting with the first: `xs[::2]`.
The odd-position slice `xs[1::2]` is `everyOther xs.tail`. -/
def everyOther {α : Type} : List α → List α
  | [] => []
  | [a] => [a]
  | a :: _ :: rest => a :: everyOther rest

/-- The flat alternating argument list `[a₁, b₁, a₂, b₂, …]` built from pairs
— the calling convention of the variadic `blend` methods, and the shape of the
`other_layers` list `LayerCollection.blend` builds by
`other_layers.extend([layer, blend_mode])`. -/
def interleavePairs {α β : Type} (ops : List (α × β)) : List (α ⊕ β) :=
  ops.flatMap (fun p => [Sum.inl p.1, Sum.inr p.2])

/-- The cell of a grid at row `i`, column `j`, when present. -/
def gridGet {α : Type} (d : List (List α)) (i j : ℕ) : Option α :=
  match d.get? i with
  | none => none
  | some row => row.get? j

/-- The pixel of a raster grid at row `i`, column `j`, when present. -/
def pixelAt (d : List (List ℚ)) (i j : ℕ) : Option ℚ :=
  gridGet d i j

/-- Worker of `dedupFirst`, carrying the set of already-seen elements. -/
def dedupFirstAux {α : Type} [DecidableEq α] (seen : List α) :
    List α → List α
  | [] => []
  | a :: rest =>
    if a ∈ seen then dedupFirstAux seen rest
    else a :: dedupFirstAux (a :: seen) rest

/-- Deduplication keeping the first occurrence of each element, the iteration
order of a Python dict or set built by insertion in list order. -/
def dedupFirst {α : Type} [DecidableEq α] (l : List α) : List α :=
  dedupFirstAux [] l

/-- `range(start_year, end_year + 1)` as a list of years. -/
def yearRange (s e : ℤ) : List ℤ :=
  (List.range (e + 1 - s).toNat).map (fun i : ℕ => s + (i : ℤ))

/-- `BlendMode` (`gcbmanimation/layer/layer.py`): the algebraic operator
paired with each blend operand. -/
inductive BlendMode where
  | Add
  | Subtract
deriving DecidableEq

/-- One positional argument of the variadic `Layer.blend(*layers)`: a layer or
a blend mode (the call site is untyped Python). -/
abbrev BlendArg := Layer ⊕ BlendMode

/-- Outcome of `Layer.convert_units`: the returned layer, the observable state
of the receiver after the call (Python `convert_units` assigns `self._units`
on its trivial path and returns `self`), and the advanced allocation
counter. -/
structure ConvertResult where
  result : Layer
  receiver : Layer
  next : ℕ
deriving DecidableEq

/-- `Layer.convert_units(units)`: returns the receiver unchanged for `Blank`
units; on an equal per-hectare flag with scale ratio 1 sets the receiver's
units to the target and returns the receiver; otherwise evaluates the masked
conversion expression (uniform path, with a pixel-area modifier on a metre
projection), or falls back to the per-pixel geodesic path, producing a new
layer at a fresh path. -/
def Layer.convert_units (self : Layer) (units : Units) (env : Env)
    (next : ℕ) : ConvertResult :=
  if self.units = Units.Blank then ⟨self, self, next⟩ else
  let current_per_ha := self.units.value.1
  let current_units_tc := self.units.value.2.1
  let new_per_ha := units.value.1
  let new_units_tc := units.value.2.1
  let unit_conversion := current_units_tc / new_units_tc
  if current_per_ha = new_per_ha ∧ unit_conversion = 1 then
    let mutated : Layer := { self with units := units }
    ⟨mutated, mutated, next⟩
  else
    let nd := self.nodata_value
    let one_hectare : ℚ := 100 ^ 2
    if current_per_ha = new_per_ha then
      let data := gdalCalc1 (fun v =>
          (v * unit_conversion) * (if v ≠ nd then 1 else 0)
            + (if v = nd then 1 else 0) * nd) self.raster nd
      ⟨{ path := next, year := self.year,
         interpretation := self.interpretation, units := units,
         raster := { self.raster with data := data } }, self, next + 1⟩
    else if self.raster.metre then
      -- per-hectare flag differs here, so the modifier is pixel area over one
      -- hectare; multiply when converting away from per-hectare, else divide.
      let per_ha_modifier := self.raster.pixelSizeX ^ 2 / one_hectare
      let data := gdalCalc1 (fun v =>
          (if current_per_ha then v * unit_conversion * per_ha_modifier
           else v * unit_conversion / per_ha_modifier)
            * (if v ≠ nd then 1 else 0) + (if v = nd then 1 else 0) * nd)
        self.raster nd
      ⟨{ path := next, year := self.year,
         interpretation := self.interpretation, units := units,
         raster := { self.raster with data := data } }, self, next + 1⟩
    else
      -- per-pixel geodetic path: true ground pixel area from geodesic
      -- distances at each pixel's location, skipping nodata pixels.
      let data := mapIdx2D (fun row col v =>
          if v ≠ nd then
            let lat := self.raster.originY - self.raster.pixelSizeY * row
            let lon := self.raster.originX + self.raster.pixelSizeX * col
            let lat_size_m := env.distanceM (lat, lon)
              (lat - self.raster.pixelSizeY, lon)
            let lon_size_m := env.distanceM (lat, lon)
              (lat, lon + self.raster.pixelSizeX)
            let pixel_size_ha := lat_size_m * lon_size_m / one_hectare
            unit_conversion *
              (if current_per_ha then v * pixel_size_ha else v / pixel_size_ha)
          else v) self.raster.data
      ⟨{ path := next, year := self.year,
         interpretation := self.interpretation, units := units,
         raster := { self.raster with data := data } }, self, next + 1⟩

/-- Pixel function of `Layer.reclassify` step 1: any pixel whose value is not
a key of the current interpretation becomes the new nodata value
(`np.isin(raster_data, keys, invert=True)` mask assignment). -/
def reclassifyMaskPixel (oldKeys : List ℚ) (ndNew v : ℚ) : ℚ :=
  if v ∈ oldKeys then v else ndNew

/-- Pixel function of `Layer.reclassify` step 2: add the collision offset to
every non-nodata pixel (`raster_data[raster_data != nodata_value] += offset`). -/
def reclassifyOffsetPixel (offset ndNew v : ℚ) : ℚ :=
  if v ≠ ndNew then v + offset else v

/-- Pixel function of `Layer.reclassify` step 3: for each entry of the current
interpretation in dict order, pixels equal to the entry's key plus the offset
are assigned the new pixel value of the entry's label, or nodata when the
label has no counterpart in the new interpretation (non-fatal, logged). -/
def reclassifyRemapPixel (oldInterp newInterp : Interpretation)
    (offset ndNew : ℚ) (v : ℚ) : ℚ :=
  oldInterp.foldl (fun acc p =>
    if acc = p.1 + offset then (inverseLookup newInterp p.2).getD ndNew
    else acc) v

/-- `Layer.reclassify(new_interpretation, nodata_value)`: remaps categorical
pixel values to the new interpretation through a collision offset of one more
than the maximum key across both interpretations.  Fails when the layer has no
interpretation (`self._interpretation.keys()` on `None`), or when both
interpretations are empty (`max()` of an empty sequence). -/
def Layer.reclassify (self : Layer) (new_interpretation : Interpretation)
    (nodata_value : ℚ) (next : ℕ) : Except String (Layer × ℕ) :=
  match self.interpretation with
  | none => .error "AttributeError: NoneType has no attribute keys"
  | some oldInterp =>
    match (interpKeys oldInterp ++ interpKeys new_interpretation).max? with
    | none => .error "ValueError: max() arg is an empty sequence"
    | some maxKey =>
      let collision_offset := maxKey + 1
      let data1 := map2D (reclassifyMaskPixel (interpKeys oldInterp) nodata_value)
        self.raster.data
      let data2 := map2D (reclassifyOffsetPixel collision_offset nodata_value) data1
      let data3 := map2D
        (reclassifyRemapPixel oldInterp new_interpretation collision_offset nodata_value)
        data2
      .ok ({ path := next, year := self.year,
             interpretation := some new_interpretation, units := self.units,
             raster := { self.raster with nodata := nodata_value, data := data3 } },
           next + 1)

/-- `Layer.flatten(flattened_value, preserve_units)`: every non-nodata pixel
becomes the target value; the interpretation is dropped; units are preserved
only on request, else reset to `Blank`. -/
def Layer.flatten (self : Layer) (flattened_value : ℚ) (preserve_units : Bool)
    (next : ℕ) : Layer × ℕ :=
  let data := map2D
    (fun v => if v ≠ self.raster.nodata then flattened_value else v)
    self.raster.data
  ({ path := next, year := self.year, interpretation := none,
     units := if preserve_units then self.units else Units.Blank,
     raster := { self.raster with data := data } }, next + 1)

/-- `Layer.reproject(projection)`: warps to the new spatial reference
(external engine), preserving year, interpretation and units. -/
def Layer.reproject (self : Layer) (projection : String) (env : Env)
    (next : ℕ) : Layer × ℕ :=
  ({ path := next, year := self.year, interpretation := self.interpretation,
     units := self.units,
     raster := env.warpProjection self.raster projection }, next + 1)

/-- Accumulator for one output cell of the blend expression
`(A ± B ± C …) * (A != ndA) * (B != ndB) * …`: the running signed sum, the
running validity-mask product, and whether any input was nodata (used by
`gdal_calc`'s nodata propagation). -/
structure BlendCell where
  value : ℚ
  mask : ℚ
  anyNodata : Bool

/-- Initial blend cell from a base-layer pixel. -/
def blendInit (ndA a : ℚ) : BlendCell :=
  { value := a, mask := if a ≠ ndA then 1 else 0, anyNodata := a = ndA }

/-- Fold one operand pixel into a blend cell per its blend mode. -/
def blendFold (mode : BlendMode) (ndB : ℚ) (cell : BlendCell) (b : ℚ) :
    BlendCell :=
  { value := match mode with
      | .Add => cell.value + b
      | .Subtract => cell.value - b
    mask := cell.mask * (if b ≠ ndB then 1 else 0)
    anyNodata := cell.anyNodata ∨ b = ndB }

/-- The output grid of `Layer.blend`: the masked sum/difference expression
evaluated by `gdal_calc` over the base raster and the converted operands, with
output nodata (= the base layer's nodata) propagated to every cell at which
any input is nodata. -/
def blendData (base : Raster) (ops : List (Raster × BlendMode)) :
    List (List ℚ) :=
  let cells := map2D (blendInit base.nodata) base.data
  let cells := ops.foldl
    (fun cs op => zipWith2D (blendFold op.2 op.1.nodata) cs op.1.data) cells
  map2D (fun c => if c.anyNodata then base.nodata else c.value * c.mask) cells

/-- One zipped argument pair of `Layer.blend` must be a layer followed by a
blend mode; anything else fails when the supposed layer is used as one. -/
def toBlendPair : BlendArg × BlendArg → Except String (Layer × BlendMode)
  | (.inl l, .inr m) => .ok (l, m)
  | _ => .error "TypeError: blend arguments must alternate layers and modes"

/-- The body of `Layer.blend` once the (layer, mode) pairs are extracted:
with no complete pair the built expression is malformed
(`"(A ) * (A != nd) * "`) and the engine's evaluation fails; more than 25
operands exhaust the single-letter variable names
(`ascii_uppercase[i]` from 1); otherwise every operand is converted to this
layer's units in order and the combined masked expression is evaluated into a
fresh artifact carrying this layer's year, interpretation and units. -/
def blendCore (self : Layer) (pairs : List (Layer × BlendMode)) (env : Env)
    (next : ℕ) : Except String (Layer × ℕ) :=
  if pairs.length = 0 then
    .error "SyntaxError: invalid syntax in calc expression"
  else if 25 < pairs.length then
    .error "IndexError: string index out of range"
  else
    let converted := statefulMap
      (fun (p : Layer × BlendMode) n =>
        let c := Layer.convert_units p.1 self.units env n
        ((c.result, p.2), c.next)) pairs next
    let data := blendData self.raster
      (converted.1.map (fun p => (p.1.raster, p.2)))
    .ok ({ path := converted.2, year := self.year,
           interpretation := self.interpretation, units := self.units,
           raster := { self.raster with data := data } }, converted.2 + 1)

/-- `Layer.blend(*layers)`: pairs the even- and odd-position arguments by
`zip(layers[::2], layers[1::2])` (an unpaired trailing argument is dropped by
`zip`), then evaluates the blend. -/
def Layer.blend (self : Layer) (args : List BlendArg) (env : Env)
    (next : ℕ) : Except String (Layer × ℕ) := do
  let pairs ← (List.zip (everyOther args) (everyOther args.tail)).mapM
    toBlendPair
  blendCore self pairs env next

/-- A bounding box (`gcbmanimation/layer/boundingbox.py`): a `Layer`
specialization constructed as `super().__init__(path, 0)` — year 0, no
interpretation, default units — plus the optional target projection and the
lazy one-shot initialization flag. -/
structure BoundingBox where
  path : ℕ
  raster : Raster
  projection : Option String
  initialized : Bool

/-- The `Layer` view of a bounding box, as constructed by
`BoundingBox.__init__`. -/
def BoundingBox.toLayer (b : BoundingBox) : Layer :=
  { path := b.path, year := 0, interpretation := none,
    units := Units.TcPerHa, raster := b.raster }

/-- `BoundingBox.min_pixel_bounds` of a bounding box. -/
def BoundingBox.min_pixel_bounds (b : BoundingBox) : ℤ × ℤ × ℤ × ℤ :=
  minPixelBounds b.raster.nodata b.raster.data

/-- `BoundingBox.min_geographic_bounds`: the minimum pixel bounds mapped
through the raster's affine transform into projected coordinates,
`[x_min_proj, y_min_proj, x_max_proj, y_max_proj]`. -/
def BoundingBox.min_geographic_bounds (b : BoundingBox) : List ℚ :=
  let (x_min, x_max, y_min, y_max) := b.min_pixel_bounds
  let x_min_proj := b.raster.originX + (x_min : ℚ) * b.raster.pixelSizeX
  let x_max_proj := b.raster.originX + (x_max : ℚ) * b.raster.pixelSizeX
  let y_min_proj := b.raster.originY + (y_min : ℚ) * b.raster.pixelSizeY
  let y_max_proj := b.raster.originY + (y_max : ℚ) * b.raster.pixelSizeY
  [x_min_proj, y_min_proj, x_max_proj, y_max_proj]

/-- `BoundingBox._init`: warp the box's own raster to its minimal geographic
extent (first fresh artifact), warp again to fix the known axis-flip side
effect (second fresh artifact), and replace the cached path and raster. -/
def BoundingBox.initialize (b : BoundingBox) (env : Env) (next : ℕ) :
    BoundingBox × ℕ :=
  let r1 := env.warpToBounds b.raster b.min_geographic_bounds b.projection
  let r2 := env.warpFix r1
  ({ path := next + 1, raster := r2, projection := b.projection,
     initialized := true }, next + 2)

/-- `BoundingBox.crop(layer)`: self-initialize on first use, then the
two-stage masked warp — stage 1 resamples the target layer onto the box's own
grid (fresh artifact), stage 2 applies the box's nodata mask through
`A * (B != ndBox) + ((B == ndBox) * ndLayer)` with the layer's nodata as the
output nodata value (fresh artifact).  In `render`'s worker pool each task
holds its own copy of the box, so initialization is evaluated per call. -/
def BoundingBox.crop (b : BoundingBox) (layer : Layer) (env : Env)
    (next : ℕ) : Layer × ℕ :=
  let (box, n0) := if b.initialized then (b, next) else b.initialize env next
  let warped : Raster :=
    { box.raster with nodata := layer.nodata_value,
                      data := env.warpToGrid layer.raster box.raster }
  let data := zipWith2D (fun a bv =>
      if a = warped.nodata ∨ bv = box.raster.nodata then layer.nodata_value
      else a * (if bv ≠ box.raster.nodata then 1 else 0)
        + (if bv = box.raster.nodata then 1 else 0) * layer.nodata_value)
    warped.data box.raster.data
  ({ path := n0 + 1, year := layer.year,
     interpretation := layer.interpretation, units := layer.units,
     raster := { box.raster with nodata := layer.nodata_value, data := data } },
   n0 + 2)

/-- A legend key at the boundary: a single pixel value or a (min, max)
range. -/
inductive LegendKey where
  | value (v : ℚ)
  | range (lo hi : ℚ)
deriving DecidableEq

/-- A legend entry: the RGB color and the label (`render`'s internal
background legend entry carries no label). -/
structure LegendEntry where
  color : ℕ × ℕ × ℕ
  label : Option String
deriving DecidableEq

/-- A legend: mapping from pixel value or range to color and label. -/
abbrev Legend := List (LegendKey × LegendEntry)

/-- `Layer.render(legend, bounding_box, transparent)`: write the color table
(consumed by the external `gdaldem color-relief` process — one temporary
artifact), crop to the bounding box when one is given, rasterize to a PNG at a
fresh artifact, and return a `Frame` tagged with this layer's year at this
layer's physical pixel scale. -/
def Layer.render (self : Layer) (_legend : Legend)
    (bounding_box : Option BoundingBox) (_transparent : Bool) (env : Env)
    (next : ℕ) : Frame × ℕ :=
  let n0 := next + 1
  let (_working, n1) := match bounding_box with
    | none => (self, n0)
    | some bbox => bbox.crop self env n0
  (Frame.mk self.year n1 (self.scale env), n1 + 1)

/-- A collection of layers for one theme
(`gcbmanimation/layer/layercollection.py`): the ordered layers, the
background color, and the legend-construction policy of the `Colorizer`
collaborator (`colorizer.py` is outside the compositing core; the collection
holds its `create_legend` behaviour as a function). -/
structure LayerCollection where
  layers : List Layer
  background_color : ℕ × ℕ × ℕ
  colorizer : List Layer → Legend

/-- `LayerCollection.empty`. -/
def LayerCollection.empty (c : LayerCollection) : Bool := c.layers.isEmpty

/-- `LayerCollection.append(layer)` (in the pure embedding: the collection
with the layer appended). -/
def LayerCollection.append (c : LayerCollection) (layer : Layer) :
    LayerCollection :=
  { c with layers := c.layers ++ [layer] }

/-- `LayerCollection.merge(other)`: concatenates the other collection's
layers into this one — no dedup, no year-collision check. -/
def LayerCollection.merge (c other : LayerCollection) : LayerCollection :=
  { c with layers := c.layers ++ other.layers }

/-- One positional argument of the variadic `LayerCollection.blend`. -/
abbrev CollectionBlendArg := LayerCollection ⊕ BlendMode

/-- One zipped argument pair of `LayerCollection.blend` must be a collection
followed by a blend mode. -/
def toCollectionBlendPair :
    CollectionBlendArg × CollectionBlendArg →
    Except String (LayerCollection × BlendMode)
  | (.inl c, .inr m) => .ok (c, m)
  | _ => .error "TypeError: blend arguments must alternate collections and modes"

/-- The local layer of one year in `LayerCollection.blend`:
`local_layers[0]` when the year is present, else a flattened zero placeholder
(value 0, units preserved) cloned from this collection's first layer or from
any operand layer — an empty chain raises `StopIteration`.  The placeholder
is rewrapped as `Layer(placeholder.path, year, …)`. -/
def blendYearLocal (self : LayerCollection)
    (blend_collections : List (LayerCollection × BlendMode)) (next : ℕ)
    (year : ℤ) : Except String (Layer × ℕ) :=
  match self.layers.filter (fun l => l.year = year) with
  | l :: _ => .ok (l, next)
  | [] =>
    match self.layers, ((blend_collections.map
        (fun (p : LayerCollection × BlendMode) => p.1.layers)).flatten) with
    | t :: _, _ =>
      let ph := t.flatten 0 true next
      .ok ({ path := ph.1.path, year := year,
             interpretation := ph.1.interpretation, units := ph.1.units,
             raster := ph.1.raster }, ph.2)
    | [], t :: _ =>
      let ph := t.flatten 0 true next
      .ok ({ path := ph.1.path, year := year,
             interpretation := ph.1.interpretation, units := ph.1.units,
             raster := ph.1.raster }, ph.2)
    | [], [] => .error "StopIteration"

/-- The tail of one year of `LayerCollection.blend`: pass the local layer
through when no operand contributes the year, else `Layer.blend` it against
the gathered operand pairs and append the result. -/
def blendYearCombine (local_layer : Layer)
    (other_pairs : List (Layer × BlendMode)) (env : Env)
    (outLayers : List Layer) (n1 : ℕ) : Except String (List Layer × ℕ) :=
  let other_layers : List BlendArg := interleavePairs other_pairs
  if other_layers.isEmpty then
    .ok (outLayers ++ [local_layer], n1)
  else
    match local_layer.blend other_layers env n1 with
    | .error e => .error e
    | .ok (blended, n2) => .ok (outLayers ++ [blended], n2)

/-- The body of `LayerCollection.blend` for one year of the union: at most
one local layer for the year (more is the fatal inconsistency), then combine
with every operand layer of that year paired with its collection's mode. -/
def blendYear (self : LayerCollection)
    (blend_collections : List (LayerCollection × BlendMode)) (env : Env)
    (acc : List Layer × ℕ) (year : ℤ) : Except String (List Layer × ℕ) :=
  let local_layers := self.layers.filter (fun l => l.year = year)
  if 1 < local_layers.length then
    .error "Cannot blend collections containing more than one layer per year."
  else
    match blendYearLocal self blend_collections acc.2 year with
    | .error e => .error e
    | .ok (local_layer, n1) =>
      let other_pairs : List (Layer × BlendMode) := blend_collections.flatMap
        (fun p => (p.1.layers.filter (fun l => l.year = year)).map
          (fun l => (l, p.2)))
      blendYearCombine local_layer other_pairs env acc.1 n1

/-- The body of `LayerCollection.blend` once the (collection, mode) pairs are
extracted: enumerate the union of years present across this collection and
all operands, and blend year by year into a fresh collection carrying this
collection's background color and colorizer. -/
def collectionBlendCore (self : LayerCollection)
    (blend_collections : List (LayerCollection × BlendMode)) (env : Env)
    (next : ℕ) : Except String (LayerCollection × ℕ) :=
  let years := dedupFirst (self.layers.map Layer.year ++
    (blend_collections.map (fun p => p.1.layers.map Layer.year)).flatten)
  match years.foldlM (blendYear self blend_collections env) ([], next) with
  | .error e => .error e
  | .ok (outLayers, n') =>
    .ok ({ layers := outLayers, background_color := self.background_color,
           colorizer := self.colorizer }, n')

/-- `LayerCollection.blend(*collections)`: pair the arguments by
`zip(collections[::2], collections[1::2])`, then blend by year. -/
def LayerCollection.blend (self : LayerCollection)
    (args : List CollectionBlendArg) (env : Env) (next : ℕ) :
    Except String (LayerCollection × ℕ) := do
  let blend_collections ←
    (List.zip (everyOther args) (everyOther args.tail)).mapM
      toCollectionBlendPair
  collectionBlendCore self blend_collections env next

/-- `LayerCollection._merge_layers(layers)`: a single-member year group passes
through; a multi-member group is mosaicked by the engine into one layer
carrying the first member's year, interpretation and units at a fresh
artifact.  An empty group would fail on `layers[0]`. -/
def merge_layers (env : Env) (layers : List Layer) (next : ℕ) :
    Except String (Layer × ℕ) :=
  match layers with
  | [] => .error "IndexError: list index out of range"
  | [l] => .ok (l, next)
  | l :: rest =>
    .ok ({ path := next, year := l.year, interpretation := l.interpretation,
           units := l.units,
           raster := env.mosaic ((l :: rest).map Layer.raster) }, next + 1)

/-- Grouping of the working layers by year (`defaultdict` filled in list
order: group keys in first-appearance order, each group in list order). -/
def groupByYear (ls : List Layer) : List (ℤ × List Layer) :=
  (dedupFirst (ls.map Layer.year)).map
    (fun y => (y, ls.filter (fun l => l.year = y)))

/-- The concatenated interpretation labels
`chain(*(layer.interpretation.values() for layer in working_layers))`:
`None.values()` on any uninterpreted layer raises, modelled as `none`. -/
def allInterpLabels : List Layer → Option (List String)
  | [] => some []
  | l :: rest => do
    let m ← l.interpretation
    let rest' ← allInterpLabels rest
    pure (interpLabels m ++ rest')

/-- `sorted(set(values))` over strings: distinct labels in lexicographic
order. -/
def sortedUnique (values : List String) : List String :=
  List.mergeSort (dedupFirst values) (fun a b => a ≤ b)

/-- The shared interpretation `render` builds when any selected layer is
interpreted: each distinct label across the collection assigned a fresh
1-based pixel value, `{i: value for i, value in enumerate(unique_values, 1)}`. -/
def commonInterpretation (working : List Layer) : Option Interpretation := do
  let labels ← allInterpLabels working
  pure ((sortedUnique labels).enum.map (fun p => (((p.1 + 1 : ℕ) : ℚ), p.2)))

/-- Lines 128–136 of `LayerCollection.render`: when any selected layer
carries an interpretation, build the single shared interpretation from the
labels of every working layer and reclassify every working layer against it
(both steps read `layer.interpretation` on every layer, interpreted or not). -/
def normalizeStep (working : List Layer) (next : ℕ) :
    Except String (List Layer × ℕ) :=
  if working.any Layer.has_interpretation then
    match commonInterpretation working with
    | none => .error "AttributeError: NoneType has no attribute values"
    | some common =>
      statefulMapE (fun l n => l.reclassify common 0 n) working next
  else
    .ok (working, next)

/-- Everything `LayerCollection.render` computes, keeping the background
frame visible for the missing-year contract. -/
structure RenderOutput where
  frames : List Frame
  legend : Legend
  background : Frame
  next : ℕ

/-- `LayerCollection.render(bounding_box, start_year, end_year, units)`:
select the years to render (the explicit range only when both bounds are
truthy — Python `if start_year and end_year`), crop the selected layers to the
bounding box, convert to the target units, normalize interpretations, group
and merge by year, build the background frame from the bounding box or the
first working layer (an `IndexError` when there is neither), derive one legend
over all merged layers, render and composite each onto the background, and
append a bare background frame for every requested year with no source
layer. -/
def LayerCollection.renderWithBg (self : LayerCollection)
    (bounding_box : Option BoundingBox) (start_year end_year : Option ℤ)
    (units : Units) (env : Env) (next : ℕ) : Except String RenderOutput :=
  let layer_years := dedupFirst (self.layers.map Layer.year)
  let render_years := if intTruthy start_year ∧ intTruthy end_year
    then yearRange (start_year.getD 0) (end_year.getD 0) else layer_years
  let working0 := self.layers.filter (fun l => l.year ∈ render_years)
  let cropped := match bounding_box with
    | some bbox => statefulMap (fun l n => bbox.crop l env n) working0 next
    | none => (working0, next)
  let converted := statefulMap
    (fun l n =>
      let c := Layer.convert_units l units env n
      (c.result, c.next)) cropped.1 cropped.2
  match normalizeStep converted.1 converted.2 with
  | .error e => .error e
  | .ok (working3, n3) =>
    let layers_by_year := groupByYear working3
    let background_layer? : Option Layer := match bounding_box with
      | some bbox => some bbox.toLayer
      | none => working3.head?
    match background_layer? with
    | none => .error "IndexError: list index out of range"
    | some background_layer =>
      let flattened := background_layer.flatten 1 false n3
      let bg := flattened.1.render
        [(LegendKey.value 1, { color := self.background_color, label := none })]
        bounding_box false env flattened.2
      match statefulMapE (fun g n => merge_layers env g.2 n)
          layers_by_year bg.2 with
      | .error e => .error e
      | .ok (merged, n6) =>
        let legend := self.colorizer merged
        let rendered := statefulMap
          (fun l n => l.render legend none true env n) merged n6
        let composited := statefulMap
          (fun f n => f.composite bg.1 true n) rendered.1 rendered.2
        let missing_years := render_years.filter (fun y => y ∉ layer_years)
        let frames := composited.1 ++ missing_years.map
          (fun y => Frame.mk y bg.1.path bg.1.scale)
        .ok ⟨frames, legend, bg.1, composited.2⟩

/-- `LayerCollection.render`'s public result: the frames and the legend. -/
def LayerCollection.render (self : LayerCollection)
    (bounding_box : Option BoundingBox) (start_year end_year : Option ℤ)
    (units : Units) (env : Env) (next : ℕ) :
    Except String (List Frame × Legend) := do
  let out ← self.renderWithBg bounding_box start_year end_year units env next
  .ok (out.frames, out.legend)

/-- The parameters accepted by `LayerCollection.__init__`. -/
def layerCollectionInitParams : List String :=
  ["self", "layers", "background_color", "colorizer"]

/-- Truthiness of a `LayerCollection` object: the class defines neither
`__bool__` nor `__len__`, so `not layers` is always `False`. -/
def layerCollectionTruthy : Bool := true

/-- `Indicator._find_layers` (`gcbmanimation/indicator/indicator.py`): build a
`LayerCollection` with `palette=` and `background_color=` keyword arguments,
append one `Layer` per raster file matching the glob pattern, and raise
`IOError` when none matched.  `palette` is not a parameter of
`LayerCollection.__init__`, so the constructor call raises `TypeError` before
the glob result is ever consulted; and because the collection object is
always truthy, the `if not layers` guard of the `IOError` could never fire
anyway.  The per-file `Layer` construction (parsing the year from the file
name) is dead code and immaterial to every claim, so the embedding returns
the matched paths themselves. -/
def Indicator.find_layers (glob_matches : List String)
    (layer_pattern : String) : Except String (List String) :=
  if "palette" ∉ layerCollectionInitParams then
    .error "TypeError: __init__() got an unexpected keyword argument palette"
  else if ¬ layerCollectionTruthy then
    .error ("IOError: No spatial output found for pattern: " ++ layer_pattern)
  else
    .ok glob_matches

/-- The raster of the layer `Layer.convert_units` returns.  The conversion's
pixel content is independent of the allocation counter, so it can be read off
at any counter value. -/
def convertedRaster (l : Layer) (units : Units) (env : Env) : Raster :=
  (l.convert_units units env 0).result.raster

/-- One output pixel of `Layer.blend` as the spec describes it, given the base
pixel and the list of (pixel value, nodata value, mode) triples of the
converted operands: the base nodata value when the base pixel or any operand
pixel is nodata, else the signed sum/difference. -/
def blendCellValue (ndA a : ℚ) (opPix : List (ℚ × ℚ × BlendMode)) : ℚ :=
  if a = ndA ∨ opPix.any (fun t => t.1 = t.2.1) then ndA
  else opPix.foldl (fun acc t =>
    match t.2.2 with
    | .Add => acc + t.1
    | .Subtract => acc - t.1) a

/-- The composite per-pixel function of `Layer.reclassify`'s three raster
passes. -/
def reclassifyPixel (oldInterp newInterp : Interpretation)
    (offset ndNew : ℚ) (v : ℚ) : ℚ :=
  reclassifyRemapPixel oldInterp newInterp offset ndNew
    (reclassifyOffsetPixel offset ndNew
      (reclassifyMaskPixel (interpKeys oldInterp) ndNew v))

/-- The per-pixel remapping the spec ascribes to `reclassify`, for comparison
with the implementation: a nodata pixel stays nodata, a pixel outside the
current interpretation becomes nodata, and an interpreted pixel becomes the
new pixel value of its label, or nodata when the label has no counterpart. -/
def reclassifySpecPixel (oldInterp newInterp : Interpretation)
    (nd v : ℚ) : ℚ :=
  if v = nd then nd
  else match oldInterp.find? (fun p => decide (p.1 = v)) with
    | none => nd
    | some p => (inverseLookup newInterp p.2).getD nd

/-- A test raster on a trivial metre grid. -/
def testRaster (d : List (List ℚ)) (nd : ℚ) : Raster :=
  { nodata := nd, data := d, originX := 0, pixelSizeX := 1, originY := 0,
    pixelSizeY := 1, metre := true }

/-- A trivial environment standing in for the external engine in concrete
evaluations. -/
def idEnv : Env :=
  { distanceM := fun _ _ => 1
    warpToGrid := fun r _ => r.data
    warpToBounds := fun r _ _ => r
    warpFix := fun r => r
    warpProjection := fun r _ => r
    mosaic := fun rs => rs.headD (testRaster [] 0) }

/-- Base layer of the blend examples: single pixel 2, nodata 5. -/
def blendBase : Layer :=
  { path := 0, year := 2000, interpretation := none, units := Units.Tc,
    raster := testRaster [[2]] 5 }

/-- Operand layer of the blend examples: single pixel 3, nodata 9. -/
def blendOperand : Layer :=
  { path := 1, year := 2000, interpretation := none, units := Units.Tc,
    raster := testRaster [[3]] 9 }

/-- Layer of the reclassify example: interpretation `{2: "A"}`, one
uninterpreted pixel 7, and reclassified with nodata value 5. -/
def reclassifyCexLayer : Layer :=
  { path := 0, year := 2000, interpretation := some [(2, "A")],
    units := Units.TcPerHa, raster := testRaster [[7]] 5 }

/-- A layer in the inert `Blank` units. -/
def blankLayer : Layer :=
  { path := 3, year := 2000, interpretation := none, units := Units.Blank,
    raster := testRaster [[1]] 0 }

/-- The single 2001 source layer of the render example. -/
def layer2001 : Layer :=
  { path := 0, year := 2001, interpretation := none, units := Units.TcPerHa,
    raster := testRaster [[4]] 0 }

/-- The render example collection: only a 2001 layer. -/
def collection2001 : LayerCollection :=
  { layers := [layer2001], background_color := (224, 224, 224),
    colorizer := fun _ => [] }

/-- The concrete successful render of the 2001-only collection over the
explicit range 2000–2003 (no bounding box). -/
def render2001out : RenderOutput :=
  (collection2001.renderWithBg none (some 2000) (some 2003) Units.TcPerHa
    idEnv 100).toOption.getD ⟨[], [], Frame.mk 0 0 0, 0⟩

/-- An interpreted layer (`{1: "Fire"}`). -/
def interpretedLayer : Layer :=
  { path := 0, year := 2001, interpretation := some [(1, "Fire")],
    units := Units.TcPerHa, raster := testRaster [[1]] 0 }

/-- A layer with no interpretation. -/
def plainLayer : Layer :=
  { path := 1, year := 2002, interpretation := none, units := Units.TcPerHa,
    raster := testRaster [[1]] 0 }

/-- A collection mixing an interpreted and an uninterpreted layer. -/
def mixedCollection : LayerCollection :=
  { layers := [interpretedLayer, plainLayer],
    background_color := (224, 224, 224), colorizer := fun _ => [] }

/-- First of two layers tagged year 2005. -/
def dupLayerA : Layer :=
  { path := 0, year := 2005, interpretation := none, units := Units.TcPerHa,
    raster := testRaster [[1]] 0 }

/-- Second of two layers tagged year 2005. -/
def dupLayerB : Layer :=
  { path := 1, year := 2005, interpretation := none, units := Units.TcPerHa,
    raster := testRaster [[2]] 0 }

/-- A collection with two layers for the same year. -/
def dupYearCollection : LayerCollection :=
  { layers := [dupLayerA, dupLayerB], background_color := (224, 224, 224),
    colorizer := fun _ => [] }

/-- An all-nodata row of width 10 for the bounding-box examples. -/
def zeroRow : List ℚ := List.replicate 10 0

/-- A data row of width 10 with data exactly in columns 2–8. -/
def dataRow : List ℚ := [0, 0, 1, 1, 1, 1, 1, 1, 1, 0]

/-- The bounding-box example grid: 12 rows, non-nodata pixels exactly in rows
5–10 and columns 2–8, nodata 0. -/
def boundsExampleGrid : List (List ℚ) :=
  [zeroRow, zeroRow, zeroRow, zeroRow, zeroRow,
   dataRow, dataRow, dataRow, dataRow, dataRow, dataRow, zeroRow]

/-- A grid whose data rows are 0 through 2 and whose data includes column 0. -/
def topRowGrid : List (List ℚ) :=
  [[1, 1, 0], [1, 1, 0], [1, 1, 0], [0, 0, 0]]

/-! ### General lemmas about the combinators -/

theorem statefulMap_nil {α β : Type} (f : α → ℕ → β × ℕ) (n : ℕ) :
    statefulMap f [] n = ([], n) := rfl

theorem statefulMap_cons {α β : Type} (f : α → ℕ → β × ℕ) (a : α)
    (as : List α) (n : ℕ) :
    statefulMap f (a :: as) n =
      ((f a n).1 :: (statefulMap f as (f a n).2).1,
       (statefulMap f as (f a n).2).2) := rfl

theorem statefulMap_fst_map {α β γ : Type} (f : α → ℕ → β × ℕ) (g : β → γ)
    (h : α → γ) (hf : ∀ a n, g ((f a n).1) = h a) :
    ∀ (l : List α) (n : ℕ), ((statefulMap f l n).1).map g = l.map h
  | [], _ => rfl
  | a :: as, n => by
    simp [statefulMap_cons, hf a n, statefulMap_fst_map f g h hf as]

theorem statefulMapE_cons {α β : Type} (f : α → ℕ → Except String (β × ℕ))
    (a : α) (as : List α) (n : ℕ) :
    statefulMapE f (a :: as) n = (f a n).bind (fun p =>
      (statefulMapE f as p.2).bind (fun q => .ok (p.1 :: q.1, q.2))) := by
  rcases he : f a n with e | p
  · simp [statefulMapE, he, bind, Except.bind]
  · rcases hr : statefulMapE f as p.2 with e | q <;>
      simp [statefulMapE, he, hr, bind, Except.bind]

theorem statefulMapE_fst_map {α β γ : Type} (f : α → ℕ → Except String (β × ℕ))
    (g : β → γ) (h : α → γ) :
    ∀ (l : List α), (∀ a ∈ l, ∀ n b n', f a n = .ok (b, n') → g b = h a) →
      ∀ (n : ℕ) (out : List β) (n' : ℕ),
        statefulMapE f l n = .ok (out, n') → out.map g = l.map h
  | [], _, n, out, n', hok => by
    simp only [statefulMapE] at hok
    cases hok
    rfl
  | a :: as, hf, n, out, n', hok => by
    rw [statefulMapE_cons] at hok
    rcases he : f a n with e | ⟨b, n1⟩ <;> rw [he] at hok <;>
      simp only [Except.bind] at hok
    · exact absurd hok (by simp)
    · rcases hr : statefulMapE f as n1 with e | ⟨bs, n2⟩ <;>
        rw [hr] at hok <;> simp only [Except.bind] at hok
      · exact absurd hok (by simp)
      · injection hok with hok1
        injection hok1 with hout hnext
        subst hout
        have h1 := hf a (List.mem_cons_self a as) n b n1 he
        have h2 := statefulMapE_fst_map f g h as
          (fun x hx => hf x (List.mem_cons_of_mem a hx)) n1 bs n2 hr
        simp [h1, h2]

theorem mem_dedupFirstAux {α : Type} [DecidableEq α] (a : α) :
    ∀ (l : List α) (seen : List α),
      a ∈ dedupFirstAux seen l ↔ a ∈ l ∧ a ∉ seen
  | [], seen => by simp [dedupFirstAux]
  | b :: rest, seen => by
    by_cases hb : b ∈ seen
    · rw [dedupFirstAux, if_pos hb, mem_dedupFirstAux a rest seen]
      constructor
      · rintro ⟨h1, h2⟩
        exact ⟨List.mem_cons_of_mem b h1, h2⟩
      · rintro ⟨h1, h2⟩
        rcases List.mem_cons.mp h1 with rfl | h1
        · exact absurd hb h2
        · exact ⟨h1, h2⟩
    · rw [dedupFirstAux, if_neg hb]
      rw [List.mem_cons, mem_dedupFirstAux a rest (b :: seen)]
      constructor
      · rintro (rfl | ⟨h1, h2⟩)
        · exact ⟨List.mem_cons_self a rest, hb⟩
        · exact ⟨List.mem_cons_of_mem b h1, fun hc => h2 (List.mem_cons_of_mem b hc)⟩
      · rintro ⟨h1, h2⟩
        rcases List.mem_cons.mp h1 with rfl | h1
        · exact Or.inl rfl
        · by_cases hab : a = b
          · exact Or.inl hab
          · exact Or.inr ⟨h1, fun hc => by
              rcases List.mem_cons.mp hc with h | h
              · exact hab h
              · exact h2 h⟩

theorem nodup_dedupFirstAux {α : Type} [DecidableEq α] :
    ∀ (l : List α) (seen : List α), (dedupFirstAux seen l).Nodup
  | [], _ => List.nodup_nil
  | b :: rest, seen => by
    by_cases hb : b ∈ seen
    · rw [dedupFirstAux, if_pos hb]
      exact nodup_dedupFirstAux rest seen
    · rw [dedupFirstAux, if_neg hb]
      refine List.nodup_cons.mpr ⟨fun hc => ?_, nodup_dedupFirstAux rest (b :: seen)⟩
      exact ((mem_dedupFirstAux b rest (b :: seen)).mp hc).2 (List.mem_cons_self b seen)

theorem mem_dedupFirst {α : Type} [DecidableEq α] (a : α) (l : List α) :
    a ∈ dedupFirst l ↔ a ∈ l := by
  rw [dedupFirst, mem_dedupFirstAux]
  simp

theorem nodup_dedupFirst {α : Type} [DecidableEq α] (l : List α) :
    (dedupFirst l).Nodup :=
  nodup_dedupFirstAux l []

theorem mem_yearRange (s e y : ℤ) : y ∈ yearRange s e ↔ s ≤ y ∧ y ≤ e := by
  simp only [yearRange, List.mem_map, List.mem_range]
  constructor
  · rintro ⟨i, hi, rfl⟩
    omega
  · rintro ⟨h1, h2⟩
    exact ⟨(y - s).toNat, by omega, by omega⟩

theorem nodup_yearRange (s e : ℤ) : (yearRange s e).Nodup := by
  rw [yearRange]
  refine List.Nodup.map (fun a b hab => ?_) (List.nodup_range _)
  omega

theorem length_filter_eq_count_map {α β : Type} [DecidableEq β] (g : α → β)
    (y : β) : ∀ l : List α,
      (l.filter (fun a => g a = y)).length = (l.map g).count y
  | [] => rfl
  | a :: as => by
    by_cases h : g a = y <;>
      simp [List.count_cons, length_filter_eq_count_map g y as, h]

theorem everyOther_interleavePairs {α β : Type} :
    ∀ ops : List (α × β),
      everyOther (interleavePairs ops) = ops.map (fun p => Sum.inl p.1)
  | [] => rfl
  | p :: rest => by
    have : interleavePairs (p :: rest) =
        Sum.inl p.1 :: Sum.inr p.2 :: interleavePairs rest := rfl
    rw [this]
    simp [everyOther, everyOther_interleavePairs rest]

theorem everyOther_cons {α : Type} (x : α) (l : List α) :
    everyOther (x :: l) = x :: everyOther l.tail := by
  cases l <;> rfl

theorem everyOther_tail_interleavePairs {α β : Type} :
    ∀ ops : List (α × β),
      everyOther (interleavePairs ops).tail = ops.map (fun p => Sum.inr p.2)
  | [] => rfl
  | p :: rest => by
    have h1 : interleavePairs (p :: rest) =
        Sum.inl p.1 :: Sum.inr p.2 :: interleavePairs rest := rfl
    rw [h1]
    show everyOther (Sum.inr p.2 :: interleavePairs rest) = _
    rw [everyOther_cons, everyOther_tail_interleavePairs rest]
    rfl

theorem mapM_loop_toBlendPair :
    ∀ (ops acc : List (Layer × BlendMode)),
      List.mapM.loop toBlendPair
          (ops.map (fun p => ((Sum.inl p.1 : BlendArg), (Sum.inr p.2 : BlendArg))))
          acc = .ok (acc.reverse ++ ops)
  | [], acc => by simp [List.mapM.loop, pure, Except.pure]
  | p :: rest, acc => by
    simp only [List.map_cons, List.mapM.loop, toBlendPair, bind, Except.bind]
    rw [mapM_loop_toBlendPair rest (p :: acc)]
    simp

theorem mapM_toBlendPair (ops : List (Layer × BlendMode)) :
    (ops.map (fun p => ((Sum.inl p.1 : BlendArg), (Sum.inr p.2 : BlendArg)))).mapM
      toBlendPair = .ok ops := by
  show List.mapM.loop toBlendPair _ [] = _
  rw [mapM_loop_toBlendPair ops []]
  rfl

/-- `Layer.blend` applied to a well-formed alternating argument list reaches
the core with exactly the given pairs. -/
theorem blend_interleavePairs (self : Layer) (ops : List (Layer × BlendMode))
    (env : Env) (n : ℕ) :
    Layer.blend self (interleavePairs ops) env n = blendCore self ops env n := by
  rw [Layer.blend, everyOther_interleavePairs, everyOther_tail_interleavePairs,
    List.zip_map', mapM_toBlendPair]
  rfl

theorem everyOther_append_single {α : Type} (x : α) : ∀ l : List α,
    (l.length % 2 = 0 → everyOther (l ++ [x]) = everyOther l ++ [x]) ∧
    (l.length % 2 = 1 → everyOther (l ++ [x]) = everyOther l)
  | [] => ⟨fun _ => rfl, fun h => by simp at h⟩
  | [a] => ⟨fun h => by simp at h, fun _ => rfl⟩
  | a :: b :: rest => by
    have hlen : (a :: b :: rest).length % 2 = rest.length % 2 := by
      simp only [List.length_cons]
      omega
    have hshow : (a :: b :: rest) ++ [x] = a :: b :: (rest ++ [x]) := rfl
    refine ⟨fun h => ?_, fun h => ?_⟩
    · rw [hshow]
      show a :: everyOther (rest ++ [x]) = (a :: everyOther rest) ++ [x]
      rw [(everyOther_append_single x rest).1 (by omega)]
      rfl
    · rw [hshow]
      show a :: everyOther (rest ++ [x]) = a :: everyOther rest
      rw [(everyOther_append_single x rest).2 (by omega)]

theorem everyOther_tail_append_single {α : Type} (x : α) (l : List α)
    (h : l.length % 2 = 0) :
    everyOther ((l ++ [x]).tail) = everyOther l.tail := by
  cases l with
  | nil => rfl
  | cons a rest =>
    show everyOther (rest ++ [x]) = everyOther rest
    exact (everyOther_append_single x rest).2 (by
      simp only [List.length_cons] at h
      omega)

theorem length_everyOther_tail_le {α : Type} : ∀ l : List α,
    (everyOther l.tail).length ≤ (everyOther l).length
  | [] => le_refl 0
  | [_] => by simp [everyOther]
  | a :: b :: rest => by
    show (everyOther (b :: rest)).length ≤ (a :: everyOther rest).length
    rw [everyOther_cons]
    simpa using length_everyOther_tail_le rest

theorem zip_append_single_right {α β : Type} (x : α) :
    ∀ (A : List α) (B : List β), B.length ≤ A.length →
      List.zip (A ++ [x]) B = List.zip A B
  | _, [], _ => by simp
  | [], _ :: _, h => by simp at h
  | a :: as, b :: bs, h => by
    simp only [List.cons_append, List.zip_cons_cons]
    rw [zip_append_single_right x as bs (by simpa using h)]

/-! ### Claim theorems -/

/-- C5: `Indicator._find_layers` never surfaces the `IOError` for a pattern
with no matches: the `LayerCollection(palette=…)` constructor call raises
`TypeError` unconditionally, before the glob result is consulted, for every
glob outcome — in particular for an empty one. -/
theorem find_layers_always_raises_type_error (glob_matches : List String)
    (pattern : String) :
    Indicator.find_layers glob_matches pattern =
      .error "TypeError: __init__() got an unexpected keyword argument palette" :=
  rfl

/-- C8 counterexample: a `blend` call with an odd number of arguments — one
complete (layer, mode) pair plus an unpaired trailing layer — does not fail;
it succeeds and returns exactly the result of the call without the trailing
argument, silently ignoring it. -/
theorem blend_unpaired_trailing_argument_ignored :
    Layer.blend blendBase
        [Sum.inl blendOperand, Sum.inr BlendMode.Add, Sum.inl blendOperand]
        idEnv 10 =
      Layer.blend blendBase [Sum.inl blendOperand, Sum.inr BlendMode.Add]
        idEnv 10 ∧
    (Layer.blend blendBase
        [Sum.inl blendOperand, Sum.inr BlendMode.Add, Sum.inl blendOperand]
        idEnv 10).isOk = true :=
  ⟨rfl, rfl⟩

/-- C8 (amended): `Layer.blend` silently drops an unpaired trailing argument
(the `zip` pairing truncates), returning exactly the result of the call
without it; it fails only when no complete (layer, mode) pair remains, as in
a single-argument call, where the built calc expression is malformed. -/
theorem blend_drops_unpaired_trailing_argument (self : Layer)
    (args : List BlendArg) (x : BlendArg) (env : Env) (n : ℕ)
    (h : args.length % 2 = 0) :
    Layer.blend self (args ++ [x]) env n = Layer.blend self args env n ∧
    Layer.blend self [x] env n =
      .error "SyntaxError: invalid syntax in calc expression" := by
  constructor
  · rw [Layer.blend, Layer.blend,
      (everyOther_append_single x args).1 h,
      everyOther_tail_append_single x args h,
      zip_append_single_right x (everyOther args) (everyOther args.tail)
        (length_everyOther_tail_le args)]
  · rfl

theorem map2D_map2D {α β γ : Type} (f : β → γ) (g : α → β)
    (d : List (List α)) :
    map2D f (map2D g d) = map2D (fun v => f (g v)) d := by
  simp [map2D, List.map_map, Function.comp_def]

theorem convert_units_blank (self : Layer) (units : Units) (env : Env)
    (n : ℕ) (h : self.units = Units.Blank) :
    self.convert_units units env n = ⟨self, self, n⟩ := by
  rw [Layer.convert_units, if_pos h]

theorem convert_units_trivial (self : Layer) (units : Units) (env : Env)
    (n : ℕ) (h : self.units ≠ Units.Blank)
    (h1 : self.units.value.1 = units.value.1)
    (h2 : self.units.value.2.1 / units.value.2.1 = 1) :
    self.convert_units units env n =
      ⟨{ self with units := units }, { self with units := units }, n⟩ := by
  simp only [Layer.convert_units, if_neg h]
  rw [if_pos ⟨h1, h2⟩]

theorem convert_units_nontrivial (self : Layer) (units : Units) (env : Env)
    (n : ℕ) (h : self.units ≠ Units.Blank)
    (h2 : ¬ (self.units.value.1 = units.value.1 ∧
      self.units.value.2.1 / units.value.2.1 = 1)) :
    (self.convert_units units env n).receiver = self ∧
    (self.convert_units units env n).result.path = n ∧
    (self.convert_units units env n).result.year = self.year ∧
    (self.convert_units units env n).result.interpretation =
      self.interpretation ∧
    (self.convert_units units env n).result.units = units ∧
    (self.convert_units units env n).next = n + 1 := by
  simp only [Layer.convert_units, if_neg h]
  rw [if_neg h2]
  split
  · exact ⟨rfl, rfl, rfl, rfl, rfl, rfl⟩
  · split
    · exact ⟨rfl, rfl, rfl, rfl, rfl, rfl⟩
    · exact ⟨rfl, rfl, rfl, rfl, rfl, rfl⟩

theorem convert_units_result_year (self : Layer) (units : Units) (env : Env)
    (n : ℕ) : (self.convert_units units env n).result.year = self.year := by
  simp only [Layer.convert_units]
  split
  · rfl
  · split
    · rfl
    · split
      · rfl
      · split <;> rfl

theorem convert_units_next_ge (self : Layer) (units : Units) (env : Env)
    (n : ℕ) : n ≤ (self.convert_units units env n).next := by
  simp only [Layer.convert_units]
  split
  · exact le_refl n
  · split
    · exact le_refl n
    · split
      · exact Nat.le_succ n
      · split <;> exact Nat.le_succ n

theorem statefulMap_snd_ge {α β : Type} (f : α → ℕ → β × ℕ)
    (hf : ∀ a m, m ≤ (f a m).2) :
    ∀ (l : List α) (m : ℕ), m ≤ (statefulMap f l m).2
  | [], m => le_refl m
  | a :: as, m =>
    le_trans (hf a m) (statefulMap_snd_ge f hf as ((f a m).2))

/-- Characterization of a successful `Layer.reclassify`. -/
theorem reclassify_ok (self : Layer) (ni : Interpretation) (nd : ℚ) (n : ℕ)
    (out : Layer) (n' : ℕ) (h : self.reclassify ni nd n = .ok (out, n')) :
    out.path = n ∧ out.year = self.year ∧
    out.interpretation = some ni ∧ out.units = self.units ∧ n' = n + 1 ∧
    ∃ oldI maxKey, self.interpretation = some oldI ∧
      (interpKeys oldI ++ interpKeys ni).max? = some maxKey ∧
      out.raster.nodata = nd ∧
      out.raster.data =
        map2D (reclassifyPixel oldI ni (maxKey + 1) nd) self.raster.data := by
  rcases hi : self.interpretation with _ | oldI
  · rw [Layer.reclassify, hi] at h
    exact absurd h (by simp)
  · rcases hm : (interpKeys oldI ++ interpKeys ni).max? with _ | maxKey
    · rw [Layer.reclassify, hi] at h
      simp only at h
      rw [hm] at h
      exact absurd h (by simp)
    · rw [Layer.reclassify, hi] at h
      simp only at h
      rw [hm] at h
      injection h with h1
      injection h1 with hout hnext
      subst hout
      refine ⟨rfl, rfl, rfl, rfl, hnext.symm, oldI, maxKey, rfl, hm, rfl, ?_⟩
      rw [map2D_map2D, map2D_map2D]
      rfl

/-- C4 counterexample: `convert_units` on a layer in `Blank` units returns
the receiver itself — the same object at the same raster artifact, with no
new temporary path allocated — contradicting "returns a new Layer backed by a
new raster artifact" for every transformation. -/
theorem convert_units_blank_returns_receiver_itself :
    (blankLayer.convert_units Units.Tc idEnv 10).result.path =
      blankLayer.path ∧
    (blankLayer.convert_units Units.Tc idEnv 10).result = blankLayer ∧
    (blankLayer.convert_units Units.Tc idEnv 10).next = 10 :=
  ⟨rfl, rfl, rfl⟩

/-- C4 (amended): `reclassify`, `flatten`, `reproject` and `blend` return a
new `Layer` at a freshly allocated raster artifact and leave the receiver
untouched (they only read it); `convert_units` does so too when a real
conversion runs, but returns the receiver itself with no new artifact when
the receiver's units are `Blank`, and on the trivial path (equal per-hectare
flag and scale ratio 1) sets the receiver's units to the target units and
returns the receiver. -/
theorem layer_transformations_allocate_fresh_artifacts
    (self : Layer) (units : Units) (ni : Interpretation) (nd fv : ℚ)
    (pu : Bool) (proj : String) (ops : List (Layer × BlendMode)) (env : Env)
    (n : ℕ) (hn : self.path < n) :
    (∀ out n', self.reclassify ni nd n = .ok (out, n') →
      out.path = n ∧ self.path ≠ out.path ∧ n' = n + 1) ∧
    ((self.flatten fv pu n).1.path = n ∧
      self.path ≠ (self.flatten fv pu n).1.path ∧
      (self.flatten fv pu n).2 = n + 1) ∧
    ((self.reproject proj env n).1.path = n ∧
      self.path ≠ (self.reproject proj env n).1.path ∧
      (self.reproject proj env n).2 = n + 1) ∧
    (∀ out n', self.blend (interleavePairs ops) env n = .ok (out, n') →
      n ≤ out.path ∧ self.path ≠ out.path) ∧
    (self.units = Units.Blank →
      self.convert_units units env n = ⟨self, self, n⟩) ∧
    (self.units ≠ Units.Blank →
      self.units.value.1 = units.value.1 →
      self.units.value.2.1 / units.value.2.1 = 1 →
      self.convert_units units env n =
        ⟨{ self with units := units }, { self with units := units }, n⟩) ∧
    (self.units ≠ Units.Blank →
      ¬ (self.units.value.1 = units.value.1 ∧
        self.units.value.2.1 / units.value.2.1 = 1) →
      (self.convert_units units env n).receiver = self ∧
      (self.convert_units units env n).result.path = n ∧
      self.path ≠ (self.convert_units units env n).result.path) := by
  refine ⟨?_, ⟨rfl, by show self.path ≠ n; omega, rfl⟩,
    ⟨rfl, by show self.path ≠ n; omega, rfl⟩, ?_, ?_, ?_, ?_⟩
  · intro out n' h
    obtain ⟨h1, -, -, -, h5, -⟩ := reclassify_ok self ni nd n out n' h
    exact ⟨h1, by omega, h5⟩
  · intro out n' h
    rw [blend_interleavePairs] at h
    rw [blendCore] at h
    split at h
    · exact absurd h (by simp)
    · split at h
      · exact absurd h (by simp)
      · injection h with h1
        injection h1 with hout hnext
        subst hout
        have hge : n ≤ (statefulMap
            (fun (p : Layer × BlendMode) m =>
              let c := Layer.convert_units p.1 self.units env m
              ((c.result, p.2), c.next)) ops n).2 :=
          statefulMap_snd_ge _ (fun a m => convert_units_next_ge a.1 _ env m)
            ops n
        refine ⟨hge, ?_⟩
        show self.path ≠ (statefulMap
          (fun (p : Layer × BlendMode) m =>
            let c := Layer.convert_units p.1 self.units env m
            ((c.result, p.2), c.next)) ops n).2
        omega
  · exact convert_units_blank self units env n
  · intro h h1 h2
    exact convert_units_trivial self units env n h h1 h2
  · intro h h2
    obtain ⟨c1, c2, -, -, -, -⟩ := convert_units_nontrivial self units env n h h2
    exact ⟨c1, c2, by omega⟩

/-- Witness for the amended C4 theorem at a concrete layer and counter. -/
theorem layer_transformations_allocate_fresh_artifacts_witness :
    (∀ out n', blendBase.reclassify [(1, "A")] 0 7 = .ok (out, n') →
      out.path = 7 ∧ blendBase.path ≠ out.path ∧ n' = 7 + 1) ∧
    ((blendBase.flatten 1 false 7).1.path = 7 ∧
      blendBase.path ≠ (blendBase.flatten 1 false 7).1.path ∧
      (blendBase.flatten 1 false 7).2 = 7 + 1) ∧
    ((blendBase.reproject "NAD83" idEnv 7).1.path = 7 ∧
      blendBase.path ≠ (blendBase.reproject "NAD83" idEnv 7).1.path ∧
      (blendBase.reproject "NAD83" idEnv 7).2 = 7 + 1) ∧
    (∀ out n', blendBase.blend (interleavePairs [(blendOperand, BlendMode.Add)])
        idEnv 7 = .ok (out, n') →
      7 ≤ out.path ∧ blendBase.path ≠ out.path) ∧
    (blendBase.units = Units.Blank →
      blendBase.convert_units Units.Mtc idEnv 7 = ⟨blendBase, blendBase, 7⟩) ∧
    (blendBase.units ≠ Units.Blank →
      blendBase.units.value.1 = Units.Mtc.value.1 →
      blendBase.units.value.2.1 / Units.Mtc.value.2.1 = 1 →
      blendBase.convert_units Units.Mtc idEnv 7 =
        ⟨{ blendBase with units := Units.Mtc },
         { blendBase with units := Units.Mtc }, 7⟩) ∧
    (blendBase.units ≠ Units.Blank →
      ¬ (blendBase.units.value.1 = Units.Mtc.value.1 ∧
        blendBase.units.value.2.1 / Units.Mtc.value.2.1 = 1) →
      (blendBase.convert_units Units.Mtc idEnv 7).receiver = blendBase ∧
      (blendBase.convert_units Units.Mtc idEnv 7).result.path = 7 ∧
      blendBase.path ≠ (blendBase.convert_units Units.Mtc idEnv 7).result.path) :=
  layer_transformations_allocate_fresh_artifacts blendBase Units.Mtc
    [(1, "A")] 0 1 false "NAD83" [(blendOperand, BlendMode.Add)] idEnv 7
    (by decide)

theorem mapM_loop_toCollectionBlendPair :
    ∀ (ops acc : List (LayerCollection × BlendMode)),
      List.mapM.loop toCollectionBlendPair
          (ops.map (fun p =>
            ((Sum.inl p.1 : CollectionBlendArg),
             (Sum.inr p.2 : CollectionBlendArg)))) acc =
        .ok (acc.reverse ++ ops)
  | [], acc => by simp [List.mapM.loop, pure, Except.pure]
  | p :: rest, acc => by
    simp only [List.map_cons, List.mapM.loop, toCollectionBlendPair, bind,
      Except.bind]
    rw [mapM_loop_toCollectionBlendPair rest (p :: acc)]
    simp

/-- `LayerCollection.blend` applied to a well-formed alternating argument
list reaches the core with exactly the given pairs. -/
theorem collection_blend_interleavePairs (self : LayerCollection)
    (ops : List (LayerCollection × BlendMode)) (env : Env) (n : ℕ) :
    self.blend (interleavePairs ops) env n =
      collectionBlendCore self ops env n := by
  rw [LayerCollection.blend, everyOther_interleavePairs,
    everyOther_tail_interleavePairs, List.zip_map']
  show ((List.map (fun p => ((Sum.inl p.1 : CollectionBlendArg),
      (Sum.inr p.2 : CollectionBlendArg))) ops).mapM
      toCollectionBlendPair).bind _ = _
  have : (List.map (fun p => ((Sum.inl p.1 : CollectionBlendArg),
      (Sum.inr p.2 : CollectionBlendArg))) ops).mapM toCollectionBlendPair =
      .ok ops := by
    show List.mapM.loop toCollectionBlendPair _ [] = _
    rw [mapM_loop_toCollectionBlendPair ops []]
    rfl
  rw [this]
  rfl

/-- `blendCore` cannot fail between one and twenty-five operand pairs. -/
theorem blendCore_ok (self : Layer) (pairs : List (Layer × BlendMode))
    (env : Env) (n : ℕ) (h1 : pairs ≠ []) (h2 : pairs.length ≤ 25) :
    ∃ out n', blendCore self pairs env n = .ok (out, n') := by
  rw [blendCore]
  rw [if_neg (by simpa using h1), if_neg (by omega)]
  exact ⟨_, _, rfl⟩

/-- A year with two or more local layers makes `blendYear` fail with the
inconsistency error. -/
theorem blendYear_error (self : LayerCollection)
    (bcs : List (LayerCollection × BlendMode)) (env : Env)
    (acc : List Layer × ℕ) (y : ℤ)
    (h : 2 ≤ (self.layers.filter (fun l => l.year = y)).length) :
    blendYear self bcs env acc y =
      .error "Cannot blend collections containing more than one layer per year." := by
  rw [blendYear]
  rw [if_pos (by omega)]

/-- `blendYearLocal` succeeds on a nonempty collection. -/
theorem blendYearLocal_ok (self : LayerCollection)
    (bcs : List (LayerCollection × BlendMode)) (k : ℕ) (y : ℤ)
    (h2 : self.layers ≠ []) :
    ∃ ll n1, blendYearLocal self bcs k y = .ok (ll, n1) := by
  rcases hf : self.layers.filter (fun l => l.year = y) with _ | ⟨l, rest⟩
  · rcases hs : self.layers with _ | ⟨t, ts⟩
    · exact absurd hs h2
    · rw [blendYearLocal, hf, hs]
      exact ⟨_, _, rfl⟩
  · rw [blendYearLocal, hf]
    exact ⟨_, _, rfl⟩

/-- `blendYearCombine` succeeds within the operand budget. -/
theorem blendYearCombine_ok (ll : Layer)
    (other_pairs : List (Layer × BlendMode)) (env : Env)
    (outLayers : List Layer) (n1 : ℕ) (h3 : other_pairs.length ≤ 25) :
    ∃ acc', blendYearCombine ll other_pairs env outLayers n1 = .ok acc' := by
  rw [blendYearCombine]
  by_cases hop : (interleavePairs other_pairs).isEmpty = true
  · rw [if_pos hop]
    exact ⟨_, rfl⟩
  · rw [if_neg hop]
    have hpne : other_pairs ≠ [] := by
      intro hc
      rw [hc] at hop
      exact hop rfl
    obtain ⟨out, n', hok⟩ := blendCore_ok ll _ env n1 hpne h3
    rw [blend_interleavePairs, hok]
    exact ⟨_, rfl⟩

/-- A year with at most one local layer succeeds in `blendYear`, provided the
collection is nonempty and the year's operand count stays within the
single-letter variable budget. -/
theorem blendYear_ok (self : LayerCollection)
    (bcs : List (LayerCollection × BlendMode)) (env : Env)
    (acc : List Layer × ℕ) (y : ℤ)
    (h1 : (self.layers.filter (fun l => l.year = y)).length ≤ 1)
    (h2 : self.layers ≠ [])
    (h3 : (bcs.flatMap (fun p =>
      (p.1.layers.filter (fun l => l.year = y)).map (fun l => (l, p.2)))).length ≤ 25) :
    ∃ acc', blendYear self bcs env acc y = .ok acc' := by
  rw [blendYear]
  rw [if_neg (by omega)]
  obtain ⟨ll, n1, hll⟩ := blendYearLocal_ok self bcs acc.2 y h2
  rw [hll]
  exact blendYearCombine_ok ll _ env acc.1 n1 h3

/-- The year fold of `LayerCollection.blend` fails with the inconsistency
error whenever some listed year has two or more local layers while all other
listed years can be blended. -/
theorem foldlM_blendYear_error (self : LayerCollection)
    (bcs : List (LayerCollection × BlendMode)) (env : Env)
    (h2 : self.layers ≠ [])
    (h3 : ∀ z : ℤ, (bcs.flatMap (fun p =>
      (p.1.layers.filter (fun l => l.year = z)).map (fun l => (l, p.2)))).length ≤ 25) :
    ∀ (years : List ℤ) (acc : List Layer × ℕ),
      (∃ y ∈ years, 2 ≤ (self.layers.filter (fun l => l.year = y)).length) →
      years.foldlM (blendYear self bcs env) acc =
        .error "Cannot blend collections containing more than one layer per year."
  | [], acc, hex => by
    obtain ⟨y, hy, -⟩ := hex
    exact absurd hy (List.not_mem_nil y)
  | y :: rest, acc, hex => by
    rw [List.foldlM_cons]
    by_cases hy : 2 ≤ (self.layers.filter (fun l => l.year = y)).length
    · rw [blendYear_error self bcs env acc y hy]
      rfl
    · obtain ⟨acc', hacc⟩ := blendYear_ok self bcs env acc y (by omega) h2 (h3 y)
      rw [hacc]
      show rest.foldlM (blendYear self bcs env) acc' = _
      refine foldlM_blendYear_error self bcs env h2 h3 rest acc' ?_
      obtain ⟨z, hz, hz2⟩ := hex
      rcases List.mem_cons.mp hz with rfl | hz
      · exact absurd hz2 hy
      · exact ⟨z, hz, hz2⟩

theorem groupByYear_map_fst (ls : List Layer) :
    (groupByYear ls).map Prod.fst = dedupFirst (ls.map Layer.year) := by
  rw [groupByYear, List.map_map]
  exact List.map_id _

theorem groupByYear_mem (ls : List Layer) (g : ℤ × List Layer)
    (hg : g ∈ groupByYear ls) :
    g.2 = ls.filter (fun l => l.year = g.1) ∧ g.1 ∈ ls.map Layer.year := by
  rw [groupByYear] at hg
  obtain ⟨y, hy, rfl⟩ := List.mem_map.mp hg
  exact ⟨rfl, (mem_dedupFirst y _).mp hy⟩

/-- A nonempty single-year group merges successfully into one layer for that
year. -/
theorem merge_layers_ok (env : Env) (y : ℤ) (g : List Layer) (hne : g ≠ [])
    (hy : ∀ l ∈ g, l.year = y) (k : ℕ) :
    ∃ ml k', merge_layers env g k = .ok (ml, k') ∧ ml.year = y := by
  rcases g with _ | ⟨l, rest⟩
  · exact absurd rfl hne
  · rcases rest with _ | ⟨l2, rest2⟩
    · exact ⟨l, k, rfl, hy l (List.mem_cons_self l [])⟩
    · exact ⟨_, k + 1, rfl, hy l (List.mem_cons_self l _)⟩

theorem statefulMapE_ok_of_forall {α β : Type}
    (f : α → ℕ → Except String (β × ℕ)) :
    ∀ (l : List α), (∀ a ∈ l, ∀ k, ∃ b k', f a k = .ok (b, k')) →
      ∀ k, ∃ out k', statefulMapE f l k = .ok (out, k')
  | [], _, k => ⟨[], k, rfl⟩
  | a :: as, hf, k => by
    obtain ⟨b, k1, hb⟩ := hf a (List.mem_cons_self a as) k
    obtain ⟨out, k2, hout⟩ := statefulMapE_ok_of_forall f as
      (fun x hx => hf x (List.mem_cons_of_mem a hx)) k1
    refine ⟨b :: out, k2, ?_⟩
    rw [statefulMapE_cons, hb]
    show (statefulMapE f as k1).bind _ = _
    rw [hout]
    rfl

/-- The per-year merge stage of `render` on a collection's layers: it
succeeds, producing exactly one layer per distinct year, tagged with that
year. -/
theorem merge_stage_ok (ls : List Layer) (env : Env) (k : ℕ) :
    ∃ merged k', statefulMapE (fun g m => merge_layers env g.2 m)
        (groupByYear ls) k = .ok (merged, k') ∧
      merged.map Layer.year = dedupFirst (ls.map Layer.year) := by
  have hall : ∀ g ∈ groupByYear ls, ∀ m, ∃ b k',
      merge_layers env g.2 m = .ok (b, k') := by
    intro g hg m
    obtain ⟨hfil, hmem⟩ := groupByYear_mem ls g hg
    obtain ⟨l0, hl0, hl0y⟩ := List.mem_map.mp hmem
    have hne : g.2 ≠ [] := by
      rw [hfil]
      intro hc
      have : l0 ∈ ls.filter (fun l => l.year = g.1) :=
        List.mem_filter.mpr ⟨hl0, by simp [hl0y]⟩
      rw [hc] at this
      exact absurd this (List.not_mem_nil l0)
    obtain ⟨ml, k', hok, -⟩ := merge_layers_ok env g.1 g.2 hne
      (fun l hl => by
        rw [hfil] at hl
        exact of_decide_eq_true (List.mem_filter.mp hl).2) m
    exact ⟨ml, k', hok⟩
  obtain ⟨merged, k', hok⟩ :=
    statefulMapE_ok_of_forall _ (groupByYear ls) hall k
  refine ⟨merged, k', hok, ?_⟩
  have := statefulMapE_fst_map (fun g m => merge_layers env g.2 m)
    Layer.year Prod.fst (groupByYear ls) ?_ k merged k' hok
  · rw [this, groupByYear_map_fst]
  · intro g hg m b k2 hb
    obtain ⟨hfil, hmem⟩ := groupByYear_mem ls g hg
    have hne : g.2 ≠ [] := by
      obtain ⟨l0, hl0, hl0y⟩ := List.mem_map.mp hmem
      rw [hfil]
      intro hc
      have : l0 ∈ ls.filter (fun l => l.year = g.1) :=
        List.mem_filter.mpr ⟨hl0, by simp [hl0y]⟩
      rw [hc] at this
      exact absurd this (List.not_mem_nil l0)
    obtain ⟨ml, k3, hok2, hyr⟩ := merge_layers_ok env g.1 g.2 hne
      (fun l hl => by
        rw [hfil] at hl
        exact of_decide_eq_true (List.mem_filter.mp hl).2) m
    have hb2 : merge_layers env g.2 m = Except.ok (b, k2) := hb
    rw [hok2] at hb2
    injection hb2 with hp
    injection hp with hml hk
    rw [hml] at hyr
    exact hyr

/-- C7: a collection holding two or more layers tagged with the same year
makes `blend` fail with the `InconsistentInput` message before any output
collection is produced, for every well-formed operand list whose per-year
operand count fits the engine's variable budget; whereas `render`'s per-year
merge stage on the same layers succeeds and mosaics the same-year fragments
into a single layer per distinct year. -/
theorem collection_blend_duplicate_year_raises (c : LayerCollection)
    (ops : List (LayerCollection × BlendMode)) (env : Env) (n m : ℕ) (y : ℤ)
    (hdup : 2 ≤ (c.layers.filter (fun l => l.year = y)).length)
    (hops : ∀ z : ℤ, (ops.flatMap (fun p =>
      (p.1.layers.filter (fun l => l.year = z)).map
        (fun l => (l, p.2)))).length ≤ 25) :
    c.blend (interleavePairs ops) env n =
      .error "Cannot blend collections containing more than one layer per year." ∧
    ∃ merged m', statefulMapE (fun g k => merge_layers env g.2 k)
        (groupByYear c.layers) m = .ok (merged, m') ∧
      merged.map Layer.year = dedupFirst (c.layers.map Layer.year) := by
  constructor
  · rw [collection_blend_interleavePairs, collectionBlendCore]
    have hne : c.layers ≠ [] := by
      intro hc
      rw [hc] at hdup
      simp at hdup
    have hy : y ∈ dedupFirst (c.layers.map Layer.year ++
        (ops.map (fun p => p.1.layers.map Layer.year)).flatten) := by
      rw [mem_dedupFirst]
      refine List.mem_append.mpr (Or.inl ?_)
      rcases hf : c.layers.filter (fun l => l.year = y) with _ | ⟨l, rest⟩
      · rw [hf] at hdup
        simp at hdup
      · have hl : l ∈ c.layers.filter (fun l => l.year = y) := by
          rw [hf]
          exact List.mem_cons_self l rest
        have := List.mem_filter.mp hl
        exact List.mem_map.mpr ⟨l, this.1, of_decide_eq_true this.2⟩
    rw [foldlM_blendYear_error c ops env hne hops _ ([], n) ⟨y, hy, hdup⟩]
  · exact merge_stage_ok c.layers env m

/-- Witness for the C7 theorem at the concrete two-layers-for-2005
collection with no operand collections. -/
theorem collection_blend_duplicate_year_raises_witness :
    dupYearCollection.blend (interleavePairs []) idEnv 40 =
      .error "Cannot blend collections containing more than one layer per year." ∧
    ∃ merged m', statefulMapE (fun g k => merge_layers idEnv g.2 k)
        (groupByYear dupYearCollection.layers) 50 = .ok (merged, m') ∧
      merged.map Layer.year =
        dedupFirst (dupYearCollection.layers.map Layer.year) :=
  collection_blend_duplicate_year_raises dupYearCollection [] idEnv 40 50
    2005 (by decide) (fun z => by simp)

/-- Witness for the amended C8 theorem at a concrete even-length argument
list. -/
theorem blend_drops_unpaired_trailing_argument_witness :
    Layer.blend blendBase
        ([Sum.inl blendOperand, Sum.inr BlendMode.Add] ++ [Sum.inl blendOperand])
        idEnv 10 =
      Layer.blend blendBase [Sum.inl blendOperand, Sum.inr BlendMode.Add]
        idEnv 10 ∧
    Layer.blend blendBase [Sum.inl blendOperand] idEnv 10 =
      .error "SyntaxError: invalid syntax in calc expression" :=
  blend_drops_unpaired_trailing_argument blendBase
    [Sum.inl blendOperand, Sum.inr BlendMode.Add] (Sum.inl blendOperand)
    idEnv 10 (by decide)

theorem get?_zipWith {α β γ : Type} (f : α → β → γ) :
    ∀ (a : List α) (b : List β) (i : ℕ),
      (List.zipWith f a b).get? i =
        match a.get? i, b.get? i with
        | some x, some y => some (f x y)
        | _, _ => none
  | [], b, i => by cases hb : b.get? i <;> simp
  | _ :: _, [], i => by simp
  | a :: as, b :: bs, 0 => rfl
  | a :: as, b :: bs, (i + 1) => get?_zipWith f as bs i

theorem gridGet_map2D {α β : Type} (f : α → β) (d : List (List α)) (i j : ℕ) :
    gridGet (map2D f d) i j = (gridGet d i j).map f := by
  rw [gridGet, gridGet, map2D, List.get?_map]
  cases d.get? i with
  | none => rfl
  | some row => simp [List.get?_map]

theorem gridGet_zipWith2D {α β γ : Type} (f : α → β → γ) (a : List (List α))
    (b : List (List β)) (i j : ℕ) :
    gridGet (zipWith2D f a b) i j =
      match gridGet a i j, gridGet b i j with
      | some x, some y => some (f x y)
      | _, _ => none := by
  rw [gridGet, gridGet, gridGet, zipWith2D, get?_zipWith]
  cases ha : a.get? i with
  | none => cases hb : b.get? i <;> rfl
  | some ra =>
    cases hb : b.get? i with
    | none =>
      simp only []
      cases hr : ra.get? j <;> simp
    | some rb => exact get?_zipWith f ra rb j

/-- The raster produced by `convert_units` does not depend on the allocation
counter. -/
theorem convert_units_result_raster (l : Layer) (u : Units) (env : Env)
    (n : ℕ) :
    (l.convert_units u env n).result.raster = convertedRaster l u env := by
  rw [convertedRaster]
  simp only [Layer.convert_units]
  split
  · rfl
  · split
    · rfl
    · split
      · rfl
      · split <;> rfl

theorem blendFold_value (ws : List (ℚ × ℚ × BlendMode)) :
    ∀ c0 : BlendCell,
      (ws.foldl (fun c t => blendFold t.2.2 t.2.1 c t.1) c0).value =
        ws.foldl (fun acc t =>
          match t.2.2 with
          | .Add => acc + t.1
          | .Subtract => acc - t.1) c0.value := by
  induction ws with
  | nil => intro c0; rfl
  | cons t ts ih =>
    intro c0
    show (ts.foldl _ (blendFold t.2.2 t.2.1 c0 t.1)).value = _
    rw [ih (blendFold t.2.2 t.2.1 c0 t.1)]
    rfl

theorem blendFold_anyNodata (ws : List (ℚ × ℚ × BlendMode)) :
    ∀ c0 : BlendCell,
      (ws.foldl (fun c t => blendFold t.2.2 t.2.1 c t.1) c0).anyNodata =
        (c0.anyNodata || ws.any (fun t => decide (t.1 = t.2.1))) := by
  induction ws with
  | nil => intro c0; simp
  | cons t ts ih =>
    intro c0
    show (ts.foldl _ (blendFold t.2.2 t.2.1 c0 t.1)).anyNodata = _
    rw [ih (blendFold t.2.2 t.2.1 c0 t.1)]
    show (decide (c0.anyNodata ∨ t.1 = t.2.1) || _) = _
    simp [Bool.or_assoc]

theorem blendFold_mask (ws : List (ℚ × ℚ × BlendMode)) :
    ∀ c0 : BlendCell, (∀ t ∈ ws, t.1 ≠ t.2.1) →
      (ws.foldl (fun c t => blendFold t.2.2 t.2.1 c t.1) c0).mask = c0.mask := by
  induction ws with
  | nil => intro c0 _; rfl
  | cons t ts ih =>
    intro c0 hall
    show (ts.foldl _ (blendFold t.2.2 t.2.1 c0 t.1)).mask = _
    rw [ih (blendFold t.2.2 t.2.1 c0 t.1)
      (fun x hx => hall x (List.mem_cons_of_mem t hx))]
    show c0.mask * (if t.1 ≠ t.2.1 then 1 else 0) = c0.mask
    rw [if_pos (hall t (List.mem_cons_self t ts))]
    exact mul_one c0.mask

/-- The operand fold of `blendData`, traced through one grid cell. -/
theorem blend_cells_fold (i j : ℕ) :
    ∀ (rs : List (Raster × BlendMode)) (ws : List (ℚ × ℚ × BlendMode)),
      List.Forall₂ (fun (r : Raster × BlendMode) (t : ℚ × ℚ × BlendMode) =>
        pixelAt r.1.data i j = some t.1 ∧ r.1.nodata = t.2.1 ∧ r.2 = t.2.2)
        rs ws →
      ∀ (cells : List (List BlendCell)) (c0 : BlendCell),
        gridGet cells i j = some c0 →
        gridGet (rs.foldl
          (fun cs op => zipWith2D (blendFold op.2 op.1.nodata) cs op.1.data)
          cells) i j =
          some (ws.foldl (fun c t => blendFold t.2.2 t.2.1 c t.1) c0)
  | [], ws, hws, cells, c0, hc => by
    cases hws
    exact hc
  | r :: rs', ws, hws, cells, c0, hc => by
    cases hws with
    | cons hrel hrest =>
      rename_i t ws'
      obtain ⟨hpix, hnod, hmode⟩ := hrel
      show gridGet (rs'.foldl _
        (zipWith2D (blendFold r.2 r.1.nodata) cells r.1.data)) i j = _
      have hstep : gridGet
          (zipWith2D (blendFold r.2 r.1.nodata) cells r.1.data) i j =
          some (blendFold t.2.2 t.2.1 c0 t.1) := by
        rw [gridGet_zipWith2D, hc]
        rw [pixelAt] at hpix
        rw [hpix, hnod, hmode]
      exact blend_cells_fold i j rs' ws' hrest _ _ hstep

/-- Per-pixel characterization of `blendData`: given the pixel values,
nodata sentinels and modes of the operand rasters at one location, the output
pixel is exactly `blendCellValue`. -/
theorem blendData_pixel (base : Raster) (rs : List (Raster × BlendMode))
    (ws : List (ℚ × ℚ × BlendMode)) (i j : ℕ) (v : ℚ)
    (hv : pixelAt base.data i j = some v)
    (hws : List.Forall₂ (fun (r : Raster × BlendMode) (t : ℚ × ℚ × BlendMode) =>
      pixelAt r.1.data i j = some t.1 ∧ r.1.nodata = t.2.1 ∧ r.2 = t.2.2)
      rs ws) :
    pixelAt (blendData base rs) i j =
      some (blendCellValue base.nodata v ws) := by
  have hinit : gridGet (map2D (blendInit base.nodata) base.data) i j =
      some (blendInit base.nodata v) := by
    rw [gridGet_map2D]
    rw [pixelAt] at hv
    rw [hv]
    rfl
  have hcells := blend_cells_fold i j rs ws hws
    (map2D (blendInit base.nodata) base.data) (blendInit base.nodata v) hinit
  rw [pixelAt, blendData, gridGet_map2D, hcells]
  show some _ = some _
  congr 1
  set c := ws.foldl (fun c t => blendFold t.2.2 t.2.1 c t.1)
    (blendInit base.nodata v) with hcdef
  show (if c.anyNodata = true then base.nodata else c.value * c.mask) =
    blendCellValue base.nodata v ws
  by_cases hbad : v = base.nodata ∨ ws.any (fun t => decide (t.1 = t.2.1)) = true
  · have hany : c.anyNodata = true := by
      rw [hcdef, blendFold_anyNodata]
      rcases hbad with hb | hb
      · simp [blendInit, hb]
      · simp [hb]
    rw [if_pos hany, blendCellValue, if_pos]
    exact hbad
  · push_neg at hbad
    obtain ⟨hvne, hany⟩ := hbad
    have hanyf : ws.any (fun t => decide (t.1 = t.2.1)) = false :=
      Bool.eq_false_iff.mpr hany
    have hcany : c.anyNodata = false := by
      rw [hcdef, blendFold_anyNodata]
      simp [blendInit, hvne, hanyf]
    rw [if_neg (by rw [hcany]; exact Bool.false_ne_true)]
    have hmask : c.mask = 1 := by
      rw [hcdef, blendFold_mask]
      · show (if v ≠ base.nodata then (1 : ℚ) else 0) = 1
        rw [if_pos hvne]
      · intro t ht
        have := List.any_eq_false.mp hanyf t ht
        simpa using this
    have hval : c.value = ws.foldl (fun acc t =>
        match t.2.2 with
        | .Add => acc + t.1
        | .Subtract => acc - t.1) v := by
      rw [hcdef, blendFold_value]
      rfl
    rw [hmask, hval, mul_one, blendCellValue, if_neg]
    intro hc
    rcases hc with hb | hb
    · exact hvne hb
    · rw [hanyf] at hb
      exact Bool.false_ne_true hb

/-- C3 counterexample: blending the base layer (pixel 2, nodata 5) with one
operand (pixel 3, nodata 9) in `Add` mode yields output pixel 5 — exactly the
output nodata value — at a location where neither the base nor the operand is
nodata, so "the output pixel is the nodata value **only if** some input is
nodata" is false. -/
theorem blend_valid_pixels_can_produce_nodata_value :
    (Layer.blend blendBase [Sum.inl blendOperand, Sum.inr BlendMode.Add]
        idEnv 10).map (fun p => pixelAt p.1.raster.data 0 0) =
      .ok (some blendBase.raster.nodata) ∧
    blendBase.raster.nodata = 5 ∧
    pixelAt blendBase.raster.data 0 0 = some 2 ∧ (2 : ℚ) ≠ 5 ∧
    pixelAt blendOperand.raster.data 0 0 = some 3 ∧
    blendOperand.raster.nodata = 9 ∧ (3 : ℚ) ≠ 9 := by
  refine ⟨by decide, rfl, rfl, by decide, rfl, rfl, by decide⟩

/-- C3 (amended): at every pixel location, the output of `Layer.blend` is the
base layer's nodata value whenever the base or any unit-converted operand is
nodata there; at all other locations it is the signed sum/difference of the
base and converted operand values per the paired modes — a value that may
itself coincide with the nodata sentinel. -/
theorem blend_pixel_semantics (self : Layer) (ops : List (Layer × BlendMode))
    (opPix : List (ℚ × ℚ × BlendMode)) (env : Env) (n : ℕ) (i j : ℕ) (v : ℚ)
    (out : Layer) (n' : ℕ)
    (hok : self.blend (interleavePairs ops) env n = .ok (out, n'))
    (hv : pixelAt self.raster.data i j = some v)
    (hws : List.Forall₂ (fun (p : Layer × BlendMode) (t : ℚ × ℚ × BlendMode) =>
      pixelAt (convertedRaster p.1 self.units env).data i j = some t.1 ∧
      (convertedRaster p.1 self.units env).nodata = t.2.1 ∧
      p.2 = t.2.2) ops opPix) :
    pixelAt out.raster.data i j =
      some (blendCellValue self.raster.nodata v opPix) ∧
    out.raster.nodata = self.raster.nodata ∧
    ((v = self.raster.nodata ∨ ∃ t ∈ opPix, t.1 = t.2.1) →
      blendCellValue self.raster.nodata v opPix = self.raster.nodata) ∧
    ((v ≠ self.raster.nodata ∧ ∀ t ∈ opPix, t.1 ≠ t.2.1) →
      blendCellValue self.raster.nodata v opPix =
        opPix.foldl (fun acc t =>
          match t.2.2 with
          | .Add => acc + t.1
          | .Subtract => acc - t.1) v) := by
  rw [blend_interleavePairs, blendCore] at hok
  split at hok
  · exact absurd hok (by simp)
  · split at hok
    · exact absurd hok (by simp)
    · injection hok with hok1
      injection hok1 with hout hnext
      subst hout
      have hlist : ((statefulMap
          (fun (p : Layer × BlendMode) m =>
            let c := Layer.convert_units p.1 self.units env m
            ((c.result, p.2), c.next)) ops n).1).map
            (fun p => (p.1.raster, p.2)) =
          ops.map (fun p => (convertedRaster p.1 self.units env, p.2)) :=
        statefulMap_fst_map _ _ _
          (fun a m => by rw [convert_units_result_raster]) ops n
      refine ⟨?_, rfl, ?_, ?_⟩
      · show pixelAt (blendData self.raster _) i j = _
        rw [hlist]
        refine blendData_pixel self.raster _ opPix i j v hv ?_
        rw [List.forall₂_map_left_iff]
        exact hws
      · intro hbad
        rw [blendCellValue, if_pos]
        rcases hbad with hb | ⟨t, ht, hteq⟩
        · exact Or.inl hb
        · exact Or.inr (List.any_eq_true.mpr ⟨t, ht, by simpa using hteq⟩)
      · rintro ⟨hvne, hall⟩
        rw [blendCellValue, if_neg]
        rintro (hb | hb)
        · exact hvne hb
        · obtain ⟨t, ht, hteq⟩ := List.any_eq_true.mp hb
          exact hall t ht (by simpa using hteq)

/-- Witness for the amended C3 theorem at the concrete one-operand blend. -/
theorem blend_pixel_semantics_witness :
    pixelAt (Layer.mk 10 2000 none Units.Tc
        (Raster.mk 5 [[5]] 0 1 0 1 true)).raster.data 0 0 =
      some (blendCellValue blendBase.raster.nodata 2
        [(3, 9, BlendMode.Add)]) ∧
    (Layer.mk 10 2000 none Units.Tc
        (Raster.mk 5 [[5]] 0 1 0 1 true)).raster.nodata =
      blendBase.raster.nodata ∧
    (((2 : ℚ) = blendBase.raster.nodata ∨
        ∃ t ∈ [((3 : ℚ), (9 : ℚ), BlendMode.Add)], t.1 = t.2.1) →
      blendCellValue blendBase.raster.nodata 2 [(3, 9, BlendMode.Add)] =
        blendBase.raster.nodata) ∧
    (((2 : ℚ) ≠ blendBase.raster.nodata ∧
        ∀ t ∈ [((3 : ℚ), (9 : ℚ), BlendMode.Add)], t.1 ≠ t.2.1) →
      blendCellValue blendBase.raster.nodata 2 [(3, 9, BlendMode.Add)] =
        [((3 : ℚ), (9 : ℚ), BlendMode.Add)].foldl (fun acc t =>
          match t.2.2 with
          | .Add => acc + t.1
          | .Subtract => acc - t.1) 2) :=
  blend_pixel_semantics blendBase [(blendOperand, BlendMode.Add)]
    [(3, 9, BlendMode.Add)] idEnv 10 0 0 2
    (Layer.mk 10 2000 none Units.Tc (Raster.mk 5 [[5]] 0 1 0 1 true)) 11
    (by decide) rfl (List.Forall₂.cons ⟨by decide, by decide, rfl⟩ List.Forall₂.nil)

/-- A successful `inverseLookup` returns a pixel value of the
interpretation. -/
theorem inverseLookup_mem_keys (m : Interpretation) (lbl : String) (x : ℚ)
    (h : inverseLookup m lbl = some x) : x ∈ interpKeys m := by
  rw [inverseLookup] at h
  rcases hf : m.reverse.find? (fun p => p.2 = lbl) with _ | p
  · rw [hf] at h
    exact absurd h (by simp)
  · rw [hf] at h
    injection h with hx
    have hp : p ∈ m.reverse := List.mem_of_find?_eq_some hf
    rw [List.mem_reverse] at hp
    rw [interpKeys]
    exact List.mem_map.mpr ⟨p, hp, hx⟩

/-- Two entries of an interpretation with distinct keys sharing the same key
have the same label. -/
theorem interp_key_unique : ∀ (m : Interpretation),
    (interpKeys m).Nodup → ∀ (v : ℚ) (l1 l2 : String),
      (v, l1) ∈ m → (v, l2) ∈ m → l1 = l2
  | [], _, v, l1, l2, h1, _ => absurd h1 (List.not_mem_nil _)
  | (k, l) :: rest, hnodup, v, l1, l2, h1, h2 => by
    rw [interpKeys, List.map_cons] at hnodup
    have hk := List.nodup_cons.mp hnodup
    rcases List.mem_cons.mp h1 with he1 | h1'
    · rcases List.mem_cons.mp h2 with he2 | h2'
      · injection he1 with hk1 hl1
        injection he2 with hk2 hl2
        rw [hl1, hl2]
      · injection he1 with hk1 hl1
        exfalso
        apply hk.1
        show k ∈ List.map Prod.fst rest
        rw [← hk1]
        exact List.mem_map.mpr ⟨(v, l2), h2', rfl⟩
    · rcases List.mem_cons.mp h2 with he2 | h2'
      · injection he2 with hk2 hl2
        exfalso
        apply hk.1
        show k ∈ List.map Prod.fst rest
        rw [← hk2]
        exact List.mem_map.mpr ⟨(v, l1), h1', rfl⟩
      · exact interp_key_unique rest hk.2 v l1 l2 h1' h2'

/-- The remap pass leaves a value untouched when it matches no offset
bucket. -/
theorem reclassifyRemapPixel_no_hit :
    ∀ (oldInterp : Interpretation) (newInterp : Interpretation)
      (offset nd acc : ℚ),
      (∀ p ∈ oldInterp, acc ≠ p.1 + offset) →
      reclassifyRemapPixel oldInterp newInterp offset nd acc = acc
  | [], _, _, _, _, _ => rfl
  | (k, l) :: rest, newInterp, offset, nd, acc, h => by
    rw [reclassifyRemapPixel]
    show rest.foldl _ (if acc = k + offset then _ else acc) = acc
    rw [if_neg (h (k, l) (List.mem_cons_self _ _))]
    exact reclassifyRemapPixel_no_hit rest newInterp offset nd acc
      (fun p hp => h p (List.mem_cons_of_mem _ hp))

/-- A value below the offset matches no bucket of a nonnegative-key
interpretation. -/
theorem reclassifyRemapPixel_lt_offset (oldInterp newInterp : Interpretation)
    (offset nd acc : ℚ) (hacc : acc < offset)
    (hk : ∀ k ∈ interpKeys oldInterp, 0 ≤ k) :
    reclassifyRemapPixel oldInterp newInterp offset nd acc = acc :=
  reclassifyRemapPixel_no_hit oldInterp newInterp offset nd acc
    (fun p hp => by
      have h0 : 0 ≤ p.1 := hk p.1 (List.mem_map.mpr ⟨p, hp, rfl⟩)
      intro hc
      rw [hc] at hacc
      linarith)

/-- The remap pass sends the offset bucket of an interpreted value to the new
pixel value of its label (or nodata). -/
theorem reclassifyRemapPixel_hit :
    ∀ (oldInterp : Interpretation) (newInterp : Interpretation)
      (offset nd v : ℚ) (lbl : String),
      (v, lbl) ∈ oldInterp →
      (interpKeys oldInterp).Nodup →
      (∀ k ∈ interpKeys oldInterp, 0 ≤ k) →
      (∀ k ∈ interpKeys newInterp, k < offset) →
      nd < offset →
      reclassifyRemapPixel oldInterp newInterp offset nd (v + offset) =
        (inverseLookup newInterp lbl).getD nd
  | [], _, _, _, _, lbl, hmem, _, _, _, _ => absurd hmem (List.not_mem_nil _)
  | (k, l) :: rest, newInterp, offset, nd, v, lbl, hmem, hnodup, hk, hnew,
    hnd => by
    rw [interpKeys, List.map_cons] at hnodup
    have hkn := List.nodup_cons.mp hnodup
    rw [reclassifyRemapPixel]
    show rest.foldl _ (if v + offset = k + offset then
      (inverseLookup newInterp l).getD nd else v + offset) = _
    by_cases hkv : v = k
    · rw [if_pos (by rw [hkv])]
      have hll : l = lbl := by
        rcases List.mem_cons.mp hmem with he | hm
        · injection he with h1 h2
          rw [h2]
        · exfalso
          apply hkn.1
          rw [← hkv]
          exact List.mem_map.mpr ⟨(v, lbl), hm, rfl⟩
      rw [hll]
      have hlt : (inverseLookup newInterp lbl).getD nd < offset := by
        rcases hi : inverseLookup newInterp lbl with _ | x
        · simpa [hi] using hnd
        · have := inverseLookup_mem_keys newInterp lbl x hi
          simpa [hi] using hnew x this
      exact reclassifyRemapPixel_no_hit rest newInterp offset nd _
        (fun p hp => by
          have h0 : 0 ≤ p.1 := hk p.1
            (List.mem_cons_of_mem _ (List.mem_map.mpr ⟨p, hp, rfl⟩))
          intro hc
          rw [hc] at hlt
          linarith)
    · rw [if_neg (fun hc => hkv (by linarith [add_right_cancel hc]))]
      have hm : (v, lbl) ∈ rest := by
        rcases List.mem_cons.mp hmem with he | hm
        · injection he with h1 h2
          exact absurd h1 hkv
        · exact hm
      exact reclassifyRemapPixel_hit rest newInterp offset nd v lbl hm hkn.2
        (fun x hx => hk x (List.mem_cons_of_mem _ hx)) hnew hnd

/-- The composite per-pixel reclassification agrees with the spec's mapping
when all interpretation keys are nonnegative, the old keys are distinct, and
the nodata value lies below the collision offset. -/
theorem reclassifyPixel_eq_spec (oldInterp newInterp : Interpretation)
    (offset nd v : ℚ)
    (hnodup : (interpKeys oldInterp).Nodup)
    (hk0 : ∀ k ∈ interpKeys oldInterp, 0 ≤ k)
    (hnew : ∀ k ∈ interpKeys newInterp, k < offset)
    (hnd : nd < offset) :
    reclassifyPixel oldInterp newInterp offset nd v =
      reclassifySpecPixel oldInterp newInterp nd v := by
  rw [reclassifyPixel, reclassifySpecPixel]
  by_cases hvnd : v = nd
  · rw [if_pos hvnd]
    have h1 : reclassifyMaskPixel (interpKeys oldInterp) nd v = nd := by
      rw [reclassifyMaskPixel]
      split
      · exact hvnd
      · rfl
    rw [h1, reclassifyOffsetPixel, if_neg (by simp)]
    exact reclassifyRemapPixel_lt_offset oldInterp newInterp offset nd nd
      hnd hk0
  · rw [if_neg hvnd]
    by_cases hvk : v ∈ interpKeys oldInterp
    · rw [reclassifyMaskPixel, if_pos hvk, reclassifyOffsetPixel,
        if_pos hvnd]
      obtain ⟨p, hp, hpv⟩ := List.mem_map.mp hvk
      rcases hfind : oldInterp.find? (fun q => decide (q.1 = v)) with _ | q
      · exfalso
        have := List.find?_eq_none.mp hfind p hp
        simp [hpv] at this
      · have hq := List.find?_some hfind
        have hqm := List.mem_of_find?_eq_some hfind
        have hqv : q.1 = v := by simpa using hq
        have hqpair : (v, q.2) ∈ oldInterp := by
          have : q = (v, q.2) := by
            rw [← hqv]
          rw [← this]
          exact hqm
        rw [hfind]
        exact reclassifyRemapPixel_hit oldInterp newInterp offset nd v q.2
          hqpair hnodup hk0 hnew hnd
    · rw [reclassifyMaskPixel, if_neg hvk, reclassifyOffsetPixel,
        if_neg (by simp)]
      have hfind : oldInterp.find? (fun q => decide (q.1 = v)) = none := by
        rw [List.find?_eq_none]
        intro p hp
        simp only [decide_eq_true_eq]
        intro hc
        exact hvk (List.mem_map.mpr ⟨p, hp, hc⟩)
      rw [hfind]
      exact reclassifyRemapPixel_lt_offset oldInterp newInterp offset nd nd
        hnd hk0

/-- C6 counterexample: with interpretation `{2: "A"}`, new interpretation
`{1: "A"}` and nodata value 5, the uninterpreted pixel 7 ends as the data
value 1, not as nodata: step 1 sets it to nodata 5, and the offset bucket of
key 2 (2 + 3 = 5) collides with the nodata value, so the remap pass captures
every nodata pixel and assigns it 1 — "pixels whose value is not a key of the
current interpretation become nodata" is false as universally stated. -/
theorem reclassify_uninterpreted_pixel_becomes_data :
    (reclassifyCexLayer.reclassify [(1, "A")] 5 1).map
        (fun p => p.1.raster.data) = .ok [[1]] ∧
    reclassifyCexLayer.interpretation = some [(2, "A")] ∧
    reclassifyCexLayer.raster.data = [[7]] ∧
    (7 : ℚ) ∉ interpKeys [((2 : ℚ), "A")] ∧
    (1 : ℚ) ≠ 5 := by
  refine ⟨by decide, rfl, rfl, by decide, by decide⟩

/-- C6 (amended): for a layer whose interpretation has distinct nonnegative
keys, a new interpretation with nonnegative keys, and a non-positive nodata
value (so the collision offset exceeds every key and the nodata value),
every output pixel of `reclassify` is exactly the spec's remapping of the
corresponding input pixel: the destination nodata value or a key of the new
interpretation; pixels outside the current interpretation become nodata;
pixels whose label has no counterpart become nodata; and no offset bucket is
captured by an earlier-assigned value. -/
theorem reclassify_pixel_domain (self : Layer) (ni : Interpretation)
    (nd : ℚ) (n : ℕ) (out : Layer) (n' : ℕ) (oldI : Interpretation)
    (hint : self.interpretation = some oldI)
    (hok : self.reclassify ni nd n = .ok (out, n'))
    (hnodup : (interpKeys oldI).Nodup)
    (hk0 : ∀ k ∈ interpKeys oldI, 0 ≤ k)
    (hk1 : ∀ k ∈ interpKeys ni, 0 ≤ k)
    (hnd : nd ≤ 0)
    (i j : ℕ) (v : ℚ) (hv : pixelAt self.raster.data i j = some v) :
    pixelAt out.raster.data i j = some (reclassifySpecPixel oldI ni nd v) ∧
    (reclassifySpecPixel oldI ni nd v = nd ∨
      reclassifySpecPixel oldI ni nd v ∈ interpKeys ni) ∧
    (v ∉ interpKeys oldI → reclassifySpecPixel oldI ni nd v = nd) ∧
    (∀ lbl, (v, lbl) ∈ oldI → inverseLookup ni lbl = none →
      reclassifySpecPixel oldI ni nd v = nd) := by
  obtain ⟨hpath, hyear, hintp, hunits, hn', oldI', maxKey, hint', hmax,
    hnod, hdata⟩ := reclassify_ok self ni nd n out n' hok
  rw [hint] at hint'
  injection hint' with holdI
  subst holdI
  have hmem := List.max?_mem (fun a b => max_choice a b) hmax
  have hle : ∀ b ∈ interpKeys oldI ++ interpKeys ni, b ≤ maxKey :=
    (List.max?_le_iff (fun a b c => max_le_iff) hmax).mp (le_refl maxKey)
  have hmax0 : 0 ≤ maxKey := by
    rcases List.mem_append.mp hmem with hm | hm
    · exact hk0 maxKey hm
    · exact hk1 maxKey hm
  have hndlt : nd < maxKey + 1 := by linarith
  have hnew : ∀ k ∈ interpKeys ni, k < maxKey + 1 := by
    intro k hk
    have := hle k (List.mem_append.mpr (Or.inr hk))
    linarith
  refine ⟨?_, ?_, ?_, ?_⟩
  · rw [pixelAt, hdata, gridGet_map2D]
    rw [pixelAt] at hv
    rw [hv]
    show some _ = some _
    congr 1
    exact reclassifyPixel_eq_spec oldI ni (maxKey + 1) nd v hnodup hk0 hnew
      hndlt
  · rw [reclassifySpecPixel]
    by_cases hvnd : v = nd
    · rw [if_pos hvnd]
      exact Or.inl rfl
    · rw [if_neg hvnd]
      rcases hfind : oldI.find? (fun q => decide (q.1 = v)) with _ | q
      · rw [hfind]
        exact Or.inl rfl
      · rw [hfind]
        show (inverseLookup ni q.2).getD nd = nd ∨
          (inverseLookup ni q.2).getD nd ∈ interpKeys ni
        rcases hi : inverseLookup ni q.2 with _ | x
        · exact Or.inl rfl
        · exact Or.inr (inverseLookup_mem_keys ni q.2 x hi)
  · intro hvk
    rw [reclassifySpecPixel]
    by_cases hvnd : v = nd
    · rw [if_pos hvnd]
    · rw [if_neg hvnd]
      have hfind : oldI.find? (fun q => decide (q.1 = v)) = none := by
        rw [List.find?_eq_none]
        intro p hp
        simp only [decide_eq_true_eq]
        intro hc
        exact hvk (List.mem_map.mpr ⟨p, hp, hc⟩)
      rw [hfind]
  · intro lbl hmem2 hinv
    rw [reclassifySpecPixel]
    by_cases hvnd : v = nd
    · rw [if_pos hvnd]
    · rw [if_neg hvnd]
      rcases hfind : oldI.find? (fun q => decide (q.1 = v)) with _ | q
      · rw [hfind]
      · rw [hfind]
        show (inverseLookup ni q.2).getD nd = nd
        have hq := List.find?_some hfind
        have hqm := List.mem_of_find?_eq_some hfind
        have hqv : q.1 = v := by simpa using hq
        have hqpair : (v, q.2) ∈ oldI := by
          have hqe : q = (v, q.2) := by
            rw [← hqv]
          rw [← hqe]
          exact hqm
        have hlbl : q.2 = lbl :=
          interp_key_unique oldI hnodup v q.2 lbl hqpair hmem2
        rw [hlbl, hinv]
        rfl

/-- Witness for the amended C6 theorem: reclassifying the `{1: "Fire"}`
layer against `{2: "Fire"}` with nodata 0 maps the pixel 1 to 2. -/
theorem reclassify_pixel_domain_witness :
    pixelAt (Layer.mk 5 2001 (some [(2, "Fire")]) Units.TcPerHa
        (Raster.mk 0 [[2]] 0 1 0 1 true)).raster.data 0 0 =
      some (reclassifySpecPixel [(1, "Fire")] [(2, "Fire")] 0 1) ∧
    (reclassifySpecPixel [(1, "Fire")] [(2, "Fire")] 0 1 = 0 ∨
      reclassifySpecPixel [(1, "Fire")] [(2, "Fire")] 0 1 ∈
        interpKeys [((2 : ℚ), "Fire")]) ∧
    ((1 : ℚ) ∉ interpKeys [((1 : ℚ), "Fire")] →
      reclassifySpecPixel [(1, "Fire")] [(2, "Fire")] 0 1 = 0) ∧
    (∀ lbl, ((1 : ℚ), lbl) ∈ [((1 : ℚ), "Fire")] →
      inverseLookup [(2, "Fire")] lbl = none →
      reclassifySpecPixel [(1, "Fire")] [(2, "Fire")] 0 1 = 0) :=
  reclassify_pixel_domain interpretedLayer [(2, "Fire")] 0 5
    (Layer.mk 5 2001 (some [(2, "Fire")]) Units.TcPerHa
      (Raster.mk 0 [[2]] 0 1 0 1 true)) 6 [(1, "Fire")]
    rfl (by decide) (by decide) (by decide) (by decide) (by decide) 0 0 1 rfl

theorem allInterpLabels_eq_none :
    ∀ (working : List Layer), (∃ l ∈ working, l.interpretation = none) →
      allInterpLabels working = none
  | [], hex => by
    obtain ⟨l, hl, -⟩ := hex
    exact absurd hl (List.not_mem_nil l)
  | l :: rest, hex => by
    rw [allInterpLabels]
    rcases hi : l.interpretation with _ | m
    · rfl
    · obtain ⟨l', hl', hnone⟩ := hex
      rcases List.mem_cons.mp hl' with rfl | hl'
      · rw [hi] at hnone
        exact absurd hnone (by simp)
      · rw [allInterpLabels_eq_none rest ⟨l', hl', hnone⟩]
        rfl

theorem allInterpLabels_eq_some :
    ∀ (working : List Layer), (∀ l ∈ working, l.interpretation ≠ none) →
      allInterpLabels working = some (working.flatMap
        (fun l => interpLabels (l.interpretation.getD [])))
  | [], _ => rfl
  | l :: rest, hall => by
    rw [allInterpLabels]
    rcases hi : l.interpretation with _ | m
    · exact absurd hi (hall l (List.mem_cons_self l rest))
    · rw [allInterpLabels_eq_some rest
        (fun x hx => hall x (List.mem_cons_of_mem l hx))]
      simp [hi]

/-- C2 counterexample: a `render` whose selected layers mix one interpreted
and one uninterpreted layer fails in the interpretation-normalization step
(reading `.values()` of a `None` interpretation) instead of skipping the
uninterpreted layer. -/
theorem render_mixed_interpretation_step_fails :
    mixedCollection.render none none none Units.TcPerHa idEnv 100 =
      .error "AttributeError: NoneType has no attribute values" ∧
    interpretedLayer ∈ mixedCollection.layers ∧
    interpretedLayer.has_interpretation = true ∧
    plainLayer ∈ mixedCollection.layers ∧
    plainLayer.interpretation = none := by
  refine ⟨by decide, by decide, rfl, by decide, rfl⟩

/-- C2 (amended): when at least one selected layer carries an interpretation,
`render`'s normalization step reads the interpretation of **every** selected
layer: it fails whenever any selected layer has none, and when all are
interpreted it builds the single shared interpretation — each distinct label
across all selected layers, in sorted order, assigned a fresh 1-based pixel
value — and reclassifies every selected layer against it. -/
theorem normalize_step_requires_all_interpreted (working : List Layer)
    (n : ℕ) (hany : working.any Layer.has_interpretation = true) :
    ((∃ l ∈ working, l.interpretation = none) →
      normalizeStep working n =
        .error "AttributeError: NoneType has no attribute values") ∧
    ((∀ l ∈ working, l.interpretation ≠ none) →
      ∃ common, commonInterpretation working = some common ∧
        common = (sortedUnique (working.flatMap
          (fun l => interpLabels (l.interpretation.getD [])))).enum.map
            (fun p => (((p.1 + 1 : ℕ) : ℚ), p.2)) ∧
        normalizeStep working n =
          statefulMapE (fun l m => l.reclassify common 0 m) working n) := by
  constructor
  · intro hex
    rw [normalizeStep, if_pos hany]
    have h1 : commonInterpretation working = none := by
      rw [commonInterpretation, allInterpLabels_eq_none working hex]
      rfl
    rw [h1]
  · intro hall
    have h1 : allInterpLabels working = some (working.flatMap
        (fun l => interpLabels (l.interpretation.getD []))) :=
      allInterpLabels_eq_some working hall
    have h2 : commonInterpretation working = some ((sortedUnique
        (working.flatMap (fun l => interpLabels (l.interpretation.getD
          [])))).enum.map (fun p => (((p.1 + 1 : ℕ) : ℚ), p.2))) := by
      rw [commonInterpretation, h1]
      rfl
    refine ⟨_, h2, rfl, ?_⟩
    rw [normalizeStep, if_pos hany, h2]

theorem foldl_min_le_init : ∀ (cs : List ℕ) (a : ℕ), cs.foldl Nat.min a ≤ a
  | [], a => le_refl a
  | c :: cs, a =>
    le_trans (foldl_min_le_init cs (Nat.min a c)) (Nat.min_le_left a c)

theorem foldl_min_le_mem :
    ∀ (cs : List ℕ) (a c : ℕ), c ∈ cs → cs.foldl Nat.min a ≤ c
  | [], _, c, h => absurd h (List.not_mem_nil c)
  | b :: cs, a, c, h => by
    rcases List.mem_cons.mp h with rfl | h
    · exact le_trans (foldl_min_le_init cs (Nat.min a c))
        (Nat.min_le_right a c)
    · exact foldl_min_le_mem cs (Nat.min a b) c h

theorem foldl_min_ge :
    ∀ (cs : List ℕ) (a m : ℕ), m ≤ a → (∀ c ∈ cs, m ≤ c) →
      m ≤ cs.foldl Nat.min a
  | [], _, _, ha, _ => ha
  | b :: cs, a, m, ha, hc => by
    refine foldl_min_ge cs (Nat.min a b) m ?_
      (fun c h => hc c (List.mem_cons_of_mem b h))
    exact le_min ha (hc b (List.mem_cons_self b cs))

theorem foldl_max_ge_init : ∀ (cs : List ℕ) (a : ℕ), a ≤ cs.foldl Nat.max a
  | [], a => le_refl a
  | c :: cs, a =>
    le_trans (Nat.le_max_left a c) (foldl_max_ge_init cs (Nat.max a c))

theorem foldl_max_ge_mem :
    ∀ (cs : List ℕ) (a c : ℕ), c ∈ cs → c ≤ cs.foldl Nat.max a
  | [], _, c, h => absurd h (List.not_mem_nil c)
  | b :: cs, a, c, h => by
    rcases List.mem_cons.mp h with rfl | h
    · exact le_trans (Nat.le_max_right a c) (foldl_max_ge_init cs (Nat.max a c))
    · exact foldl_max_ge_mem cs (Nat.max a b) c h

theorem foldl_max_le :
    ∀ (cs : List ℕ) (a m : ℕ), a ≤ m → (∀ c ∈ cs, c ≤ m) →
      cs.foldl Nat.max a ≤ m
  | [], _, _, ha, _ => ha
  | b :: cs, a, m, ha, hc => by
    refine foldl_max_le cs (Nat.max a b) m ?_
      (fun c h => hc c (List.mem_cons_of_mem b h))
    exact max_le ha (hc b (List.mem_cons_self b cs))

theorem pbStep_empty (nd : ℚ) (s : PBState) (i : ℕ) (row : List ℚ)
    (h : rowDataCols nd row = []) : pbStep nd s i row = s := by
  rw [pbStep, h]

theorem pbStep_cons (nd : ℚ) (s : PBState) (i : ℕ) (row : List ℚ)
    (c : ℕ) (cs : List ℕ) (h : rowDataCols nd row = c :: cs) :
    pbStep nd s i row =
      { xMin := if (((c :: cs).foldl Nat.min c : ℕ) : ℤ) < s.xMin
          then (((c :: cs).foldl Nat.min c : ℕ) : ℤ) else s.xMin
        xMax := if (((c :: cs).foldl Nat.max c : ℕ) : ℤ) > s.xMax
          then (((c :: cs).foldl Nat.max c : ℕ) : ℤ) else s.xMax
        yMin := if s.yMin = 0 then (i : ℤ) else s.yMin
        yMax := (i : ℤ) } := by
  rw [pbStep, h]

theorem enumFrom_cons {α : Type} (n : ℕ) (a : α) (as : List α) :
    List.enumFrom n (a :: as) = (n, a) :: List.enumFrom (n + 1) as := rfl

theorem pbFold_cons (nd : ℚ) (p : ℕ × List ℚ) (L : List (ℕ × List ℚ))
    (s0 : PBState) :
    pbFold nd (p :: L) s0 = pbFold nd L (pbStep nd s0 p.1 p.2) := rfl

/-- A run of all-nodata rows leaves the scan state unchanged. -/
theorem pbFold_skip (nd : ℚ) :
    ∀ (data : List (List ℚ)) (k : ℕ) (s0 : PBState),
      (∀ p ∈ List.enumFrom k data, rowDataCols nd p.2 = []) →
      pbFold nd (List.enumFrom k data) s0 = s0
  | [], _, _, _ => rfl
  | row :: rest, k, s0, h => by
    rw [enumFrom_cons, pbFold_cons,
      pbStep_empty nd s0 k row (h (k, row) (List.mem_cons_self _ _))]
    exact pbFold_skip nd rest (k + 1) s0
      (fun p hp => h p (List.mem_cons_of_mem _ hp))

/-- Once the first-data-row tracker holds a nonzero index it never changes. -/
theorem pbFold_yMin_stable (nd : ℚ) :
    ∀ (data : List (List ℚ)) (k : ℕ) (s0 : PBState), s0.yMin ≠ 0 →
      (pbFold nd (List.enumFrom k data) s0).yMin = s0.yMin
  | [], _, _, _ => rfl
  | row :: rest, k, s0, h => by
    rw [enumFrom_cons, pbFold_cons]
    rcases hr : rowDataCols nd row with _ | ⟨c, cs⟩
    · rw [pbStep_empty nd s0 k row hr]
      exact pbFold_yMin_stable nd rest (k + 1) s0 h
    · rw [pbStep_cons nd s0 k row c cs hr]
      rw [pbFold_yMin_stable nd rest (k + 1) _ (by simpa [if_neg h] using h)]
      simp [if_neg h]

/-- The last-data-row tracker ends at the unique maximal data row index. -/
theorem pbFold_yMax_exact (nd : ℚ) (M : ℕ) :
    ∀ (data : List (List ℚ)) (k : ℕ) (s0 : PBState),
      (∃ p ∈ List.enumFrom k data, p.1 = M ∧ rowDataCols nd p.2 ≠ []) →
      (∀ p ∈ List.enumFrom k data, rowDataCols nd p.2 ≠ [] → p.1 ≤ M) →
      (pbFold nd (List.enumFrom k data) s0).yMax = (M : ℤ)
  | [], _, _, hex, _ => by
    obtain ⟨p, hp, -⟩ := hex
    exact absurd hp (List.not_mem_nil p)
  | row :: rest, k, s0, hex, hub => by
    rw [enumFrom_cons, pbFold_cons]
    rcases hr : rowDataCols nd row with _ | ⟨c, cs⟩
    · rw [pbStep_empty nd s0 k row hr]
      refine pbFold_yMax_exact nd M rest (k + 1) s0 ?_
        (fun p hp => hub p (List.mem_cons_of_mem _ hp))
      obtain ⟨p, hp, hpm, hpd⟩ := hex
      rcases List.mem_cons.mp hp with rfl | hp
      · exact absurd hr hpd
      · exact ⟨p, hp, hpm, hpd⟩
    · rw [pbStep_cons nd s0 k row c cs hr]
      by_cases hrest : ∃ p ∈ List.enumFrom (k + 1) rest,
          p.1 = M ∧ rowDataCols nd p.2 ≠ []
      · exact pbFold_yMax_exact nd M rest (k + 1) _ hrest
          (fun p hp => hub p (List.mem_cons_of_mem _ hp))
      · have hkM : k = M := by
          obtain ⟨p, hp, hpm, hpd⟩ := hex
          rcases List.mem_cons.mp hp with rfl | hp
          · exact hpm
          · exact absurd ⟨p, hp, hpm, hpd⟩ hrest
        have hrestskip : ∀ p ∈ List.enumFrom (k + 1) rest,
            rowDataCols nd p.2 = [] := by
          intro p hp
          by_contra hpd
          have h1 := hub p (List.mem_cons_of_mem _ hp) hpd
          have h2 : k + 1 ≤ p.1 := by
            rcases p with ⟨i, r⟩
            exact (List.mem_enumFrom hp).1
          omega
        rw [pbFold_skip nd rest (k + 1) _ hrestskip, hkM]

/-- The first-data-row tracker ends at the minimal data row index when that
index is nonzero. -/
theorem pbFold_yMin_first (nd : ℚ) (F : ℕ) (hF : F ≠ 0) :
    ∀ (data : List (List ℚ)) (k : ℕ) (s0 : PBState), s0.yMin = 0 →
      (∃ p ∈ List.enumFrom k data, p.1 = F ∧ rowDataCols nd p.2 ≠ []) →
      (∀ p ∈ List.enumFrom k data, rowDataCols nd p.2 ≠ [] → F ≤ p.1) →
      (pbFold nd (List.enumFrom k data) s0).yMin = (F : ℤ)
  | [], _, _, _, hex, _ => by
    obtain ⟨p, hp, -⟩ := hex
    exact absurd hp (List.not_mem_nil p)
  | row :: rest, k, s0, hy0, hex, hlb => by
    rw [enumFrom_cons, pbFold_cons]
    rcases hr : rowDataCols nd row with _ | ⟨c, cs⟩
    · rw [pbStep_empty nd s0 k row hr]
      refine pbFold_yMin_first nd F hF rest (k + 1) s0 hy0 ?_
        (fun p hp => hlb p (List.mem_cons_of_mem _ hp))
      obtain ⟨p, hp, hpm, hpd⟩ := hex
      rcases List.mem_cons.mp hp with rfl | hp
      · exact absurd hr hpd
      · exact ⟨p, hp, hpm, hpd⟩
    · have hkF : k = F := by
        have h1 : F ≤ k := hlb (k, row) (List.mem_cons_self _ _) (by simp [hr])
        obtain ⟨p, hp, hpm, hpd⟩ := hex
        rcases List.mem_cons.mp hp with rfl | hp
        · exact hpm.symm ▸ rfl
        · have h2 : k + 1 ≤ p.1 := by
            rcases p with ⟨i, r⟩
            exact (List.mem_enumFrom hp).1
          omega
      rw [pbStep_cons nd s0 k row c cs hr]
      have hstable := pbFold_yMin_stable nd rest (k + 1)
        { xMin := if (((c :: cs).foldl Nat.min c : ℕ) : ℤ) < s0.xMin
            then (((c :: cs).foldl Nat.min c : ℕ) : ℤ) else s0.xMin
          xMax := if (((c :: cs).foldl Nat.max c : ℕ) : ℤ) > s0.xMax
            then (((c :: cs).foldl Nat.max c : ℕ) : ℤ) else s0.xMax
          yMin := if s0.yMin = 0 then (k : ℤ) else s0.yMin
          yMax := (k : ℤ) }
        (by
          show (if s0.yMin = 0 then (k : ℤ) else s0.yMin) ≠ 0
          rw [hy0, if_pos rfl, hkF]
          exact_mod_cast hF)
      rw [hstable]
      rw [hy0]
      simp [hkF]

/-- The x lower bound never increases along the scan. -/
theorem pbFold_xMin_le_init (nd : ℚ) :
    ∀ (data : List (List ℚ)) (k : ℕ) (s0 : PBState),
      (pbFold nd (List.enumFrom k data) s0).xMin ≤ s0.xMin
  | [], _, _ => le_refl _
  | row :: rest, k, s0 => by
    rw [enumFrom_cons, pbFold_cons]
    rcases hr : rowDataCols nd row with _ | ⟨c, cs⟩
    · rw [pbStep_empty nd s0 k row hr]
      exact pbFold_xMin_le_init nd rest (k + 1) s0
    · rw [pbStep_cons nd s0 k row c cs hr]
      refine le_trans (pbFold_xMin_le_init nd rest (k + 1) _) ?_
      dsimp only
      split
      · omega
      · exact le_refl _

/-- A data column pulls the x lower bound down to it. -/
theorem pbFold_xMin_le (nd : ℚ) (c0 : ℕ) :
    ∀ (data : List (List ℚ)) (k : ℕ) (s0 : PBState),
      (∃ p ∈ List.enumFrom k data, c0 ∈ rowDataCols nd p.2) →
      (pbFold nd (List.enumFrom k data) s0).xMin ≤ (c0 : ℤ)
  | [], _, _, hex => by
    obtain ⟨p, hp, -⟩ := hex
    exact absurd hp (List.not_mem_nil p)
  | row :: rest, k, s0, hex => by
    rw [enumFrom_cons, pbFold_cons]
    rcases hr : rowDataCols nd row with _ | ⟨c, cs⟩
    · rw [pbStep_empty nd s0 k row hr]
      refine pbFold_xMin_le nd c0 rest (k + 1) s0 ?_
      obtain ⟨p, hp, hpc⟩ := hex
      rcases List.mem_cons.mp hp with rfl | hp
      · rw [hr] at hpc
        exact absurd hpc (List.not_mem_nil c0)
      · exact ⟨p, hp, hpc⟩
    · rw [pbStep_cons nd s0 k row c cs hr]
      by_cases hin : c0 ∈ rowDataCols nd row
      · have hmin : (c :: cs).foldl Nat.min c ≤ c0 :=
          foldl_min_le_mem (c :: cs) c c0 (by rwa [hr] at hin)
        refine le_trans (pbFold_xMin_le_init nd rest (k + 1) _) ?_
        dsimp only
        split
        · exact_mod_cast hmin
        · omega
      · obtain ⟨p, hp, hpc⟩ := hex
        rcases List.mem_cons.mp hp with rfl | hp
        · exact absurd hpc hin
        · exact pbFold_xMin_le nd c0 rest (k + 1) _ ⟨p, hp, hpc⟩

/-- The x lower bound stays above any common lower bound of the data
columns. -/
theorem pbFold_xMin_ge (nd : ℚ) (m : ℤ) :
    ∀ (data : List (List ℚ)) (k : ℕ) (s0 : PBState),
      (∀ p ∈ List.enumFrom k data, ∀ c ∈ rowDataCols nd p.2, m ≤ (c : ℤ)) →
      m ≤ s0.xMin → m ≤ (pbFold nd (List.enumFrom k data) s0).xMin
  | [], _, _, _, hs0 => hs0
  | row :: rest, k, s0, hall, hs0 => by
    rw [enumFrom_cons, pbFold_cons]
    rcases hr : rowDataCols nd row with _ | ⟨c, cs⟩
    · rw [pbStep_empty nd s0 k row hr]
      exact pbFold_xMin_ge nd m rest (k + 1) s0
        (fun p hp => hall p (List.mem_cons_of_mem _ hp)) hs0
    · rw [pbStep_cons nd s0 k row c cs hr]
      refine pbFold_xMin_ge nd m rest (k + 1) _
        (fun p hp => hall p (List.mem_cons_of_mem _ hp)) ?_
      have hrow : ∀ x ∈ c :: cs, m ≤ (x : ℤ) := by
        intro x hx
        refine hall (k, row) (List.mem_cons_self _ _) x ?_
        rw [hr]
        exact hx
      have hmin : m ≤ (((c :: cs).foldl Nat.min c : ℕ) : ℤ) := by
        rcases le_or_lt 0 m with hm | hm
        · have : m.toNat ≤ (c :: cs).foldl Nat.min c := by
            refine foldl_min_ge (c :: cs) c m.toNat ?_
              (fun x hx => ?_)
            · have := hrow c (List.mem_cons_self c cs)
              omega
            · have := hrow x hx
              omega
          omega
        · omega
      dsimp only
      split
      · exact hmin
      · exact hs0

/-- The x upper bound never decreases along the scan. -/
theorem pbFold_xMax_ge_init (nd : ℚ) :
    ∀ (data : List (List ℚ)) (k : ℕ) (s0 : PBState),
      s0.xMax ≤ (pbFold nd (List.enumFrom k data) s0).xMax
  | [], _, _ => le_refl _
  | row :: rest, k, s0 => by
    rw [enumFrom_cons, pbFold_cons]
    rcases hr : rowDataCols nd row with _ | ⟨c, cs⟩
    · rw [pbStep_empty nd s0 k row hr]
      exact pbFold_xMax_ge_init nd rest (k + 1) s0
    · rw [pbStep_cons nd s0 k row c cs hr]
      refine le_trans ?_ (pbFold_xMax_ge_init nd rest (k + 1) _)
      dsimp only
      split
      · omega
      · exact le_refl _

/-- A data column pushes the x upper bound up to it. -/
theorem pbFold_xMax_ge (nd : ℚ) (c0 : ℕ) :
    ∀ (data : List (List ℚ)) (k : ℕ) (s0 : PBState),
      (∃ p ∈ List.enumFrom k data, c0 ∈ rowDataCols nd p.2) →
      (c0 : ℤ) ≤ (pbFold nd (List.enumFrom k data) s0).xMax
  | [], _, _, hex => by
    obtain ⟨p, hp, -⟩ := hex
    exact absurd hp (List.not_mem_nil p)
  | row :: rest, k, s0, hex => by
    rw [enumFrom_cons, pbFold_cons]
    rcases hr : rowDataCols nd row with _ | ⟨c, cs⟩
    · rw [pbStep_empty nd s0 k row hr]
      refine pbFold_xMax_ge nd c0 rest (k + 1) s0 ?_
      obtain ⟨p, hp, hpc⟩ := hex
      rcases List.mem_cons.mp hp with rfl | hp
      · rw [hr] at hpc
        exact absurd hpc (List.not_mem_nil c0)
      · exact ⟨p, hp, hpc⟩
    · rw [pbStep_cons nd s0 k row c cs hr]
      by_cases hin : c0 ∈ rowDataCols nd row
      · have hmax : c0 ≤ (c :: cs).foldl Nat.max c :=
          foldl_max_ge_mem (c :: cs) c c0 (by rwa [hr] at hin)
        refine le_trans ?_ (pbFold_xMax_ge_init nd rest (k + 1) _)
        dsimp only
        split
        · exact_mod_cast hmax
        · omega
      · obtain ⟨p, hp, hpc⟩ := hex
        rcases List.mem_cons.mp hp with rfl | hp
        · exact absurd hpc hin
        · exact pbFold_xMax_ge nd c0 rest (k + 1) _ ⟨p, hp, hpc⟩

/-- The x upper bound stays below any common upper bound of the data
columns. -/
theorem pbFold_xMax_le (nd : ℚ) (M : ℤ) :
    ∀ (data : List (List ℚ)) (k : ℕ) (s0 : PBState),
      (∀ p ∈ List.enumFrom k data, ∀ c ∈ rowDataCols nd p.2, (c : ℤ) ≤ M) →
      s0.xMax ≤ M → (pbFold nd (List.enumFrom k data) s0).xMax ≤ M
  | [], _, _, _, hs0 => hs0
  | row :: rest, k, s0, hall, hs0 => by
    rw [enumFrom_cons, pbFold_cons]
    rcases hr : rowDataCols nd row with _ | ⟨c, cs⟩
    · rw [pbStep_empty nd s0 k row hr]
      exact pbFold_xMax_le nd M rest (k + 1) s0
        (fun p hp => hall p (List.mem_cons_of_mem _ hp)) hs0
    · rw [pbStep_cons nd s0 k row c cs hr]
      refine pbFold_xMax_le nd M rest (k + 1) _
        (fun p hp => hall p (List.mem_cons_of_mem _ hp)) ?_
      have hrow : ∀ x ∈ c :: cs, (x : ℤ) ≤ M := by
        intro x hx
        refine hall (k, row) (List.mem_cons_self _ _) x ?_
        rw [hr]
        exact hx
      have hmax : (((c :: cs).foldl Nat.max c : ℕ) : ℤ) ≤ M := by
        have h0 : (0 : ℤ) ≤ (c : ℤ) := by positivity
        have : (c :: cs).foldl Nat.max c ≤ M.toNat := by
          refine foldl_max_le (c :: cs) c M.toNat ?_ (fun x hx => ?_)
          · have := hrow c (List.mem_cons_self c cs)
            omega
          · have := hrow x hx
            omega
        have hM0 : (0 : ℤ) ≤ M := le_trans h0 (hrow c (List.mem_cons_self c cs))
        omega
      dsimp only
      split
      · exact hmax
      · exact hs0

/-- A column index is collected by `rowDataCols` exactly when the row holds a
non-nodata pixel there. -/
theorem mem_rowDataCols (nd : ℚ) (row : List ℚ) (c : ℕ) :
    c ∈ rowDataCols nd row ↔ ∃ q ∈ row.enum, q.1 = c ∧ q.2 ≠ nd := by
  unfold rowDataCols
  constructor
  · intro h
    obtain ⟨q, hq, hqc⟩ := List.mem_map.mp h
    have hq' := List.mem_filter.mp hq
    exact ⟨q, hq'.1, hqc, by simpa using hq'.2⟩
  · rintro ⟨q, hq, hqc, hqv⟩
    exact List.mem_map.mpr ⟨q, List.mem_filter.mpr ⟨hq, by simpa using hqv⟩, hqc⟩

/-- `rowDataCols` is nonempty exactly when the row holds a non-nodata pixel. -/
theorem rowDataCols_ne_nil (nd : ℚ) (row : List ℚ) :
    rowDataCols nd row ≠ [] ↔ ∃ q ∈ row.enum, q.2 ≠ nd := by
  constructor
  · intro h
    obtain ⟨c, hc⟩ := List.exists_mem_of_ne_nil _ h
    obtain ⟨q, hq, -, hqv⟩ := (mem_rowDataCols nd row c).mp hc
    exact ⟨q, hq, hqv⟩
  · rintro ⟨q, hq, hqv⟩ hnil
    have hmem : q.1 ∈ rowDataCols nd row :=
      (mem_rowDataCols nd row q.1).mpr ⟨q, hq, rfl, hqv⟩
    rw [hnil] at hmem
    exact List.not_mem_nil _ hmem

/-- C9: on every rectangular raster whose non-nodata pixels are confined to
rows 5–10 and columns 2–8, with every one of those four boundary lines
attained, `min_pixel_bounds` returns the data rectangle padded by one pixel on
every side: `(1, 9, 4, 11)`. -/
theorem min_pixel_bounds_padded_box (nd : ℚ) (data : List (List ℚ)) (w : ℕ)
    (hrect : ∀ row ∈ data, row.length = w)
    (hin : ∀ p ∈ data.enum, ∀ q ∈ p.2.enum, q.2 ≠ nd →
      5 ≤ p.1 ∧ p.1 ≤ 10 ∧ 2 ≤ q.1 ∧ q.1 ≤ 8)
    (h5 : ∃ p ∈ data.enum, p.1 = 5 ∧ ∃ q ∈ p.2.enum, q.2 ≠ nd)
    (h10 : ∃ p ∈ data.enum, p.1 = 10 ∧ ∃ q ∈ p.2.enum, q.2 ≠ nd)
    (hc2 : ∃ p ∈ data.enum, ∃ q ∈ p.2.enum, q.1 = 2 ∧ q.2 ≠ nd)
    (hc8 : ∃ p ∈ data.enum, ∃ q ∈ p.2.enum, q.1 = 8 ∧ q.2 ≠ nd) :
    minPixelBounds nd data = (1, 9, 4, 11) := by
  have henum : data.enum = List.enumFrom 0 data := rfl
  have hcol : ∀ p ∈ List.enumFrom 0 data, ∀ c ∈ rowDataCols nd p.2,
      5 ≤ p.1 ∧ p.1 ≤ 10 ∧ 2 ≤ c ∧ c ≤ 8 := by
    intro p hp c hc
    obtain ⟨q, hq, hqc, hqv⟩ := (mem_rowDataCols nd p.2 c).mp hc
    have h := hin p (henum ▸ hp) q hq hqv
    exact ⟨h.1, h.2.1, hqc ▸ h.2.2.1, hqc ▸ h.2.2.2⟩
  -- the boundary witnesses, restated through rowDataCols
  have hex5 : ∃ p ∈ List.enumFrom 0 data, p.1 = 5 ∧ rowDataCols nd p.2 ≠ [] := by
    obtain ⟨p, hp, hp5, q, hq, hqv⟩ := h5
    exact ⟨p, henum ▸ hp, hp5, (rowDataCols_ne_nil nd p.2).mpr ⟨q, hq, hqv⟩⟩
  have hex10 : ∃ p ∈ List.enumFrom 0 data, p.1 = 10 ∧ rowDataCols nd p.2 ≠ [] := by
    obtain ⟨p, hp, hp10, q, hq, hqv⟩ := h10
    exact ⟨p, henum ▸ hp, hp10, (rowDataCols_ne_nil nd p.2).mpr ⟨q, hq, hqv⟩⟩
  have hexc2 : ∃ p ∈ List.enumFrom 0 data, (2 : ℕ) ∈ rowDataCols nd p.2 := by
    obtain ⟨p, hp, q, hq, hq2, hqv⟩ := hc2
    exact ⟨p, henum ▸ hp, (mem_rowDataCols nd p.2 2).mpr ⟨q, hq, hq2, hqv⟩⟩
  have hexc8 : ∃ p ∈ List.enumFrom 0 data, (8 : ℕ) ∈ rowDataCols nd p.2 := by
    obtain ⟨p, hp, q, hq, hq8, hqv⟩ := hc8
    exact ⟨p, henum ▸ hp, (mem_rowDataCols nd p.2 8).mpr ⟨q, hq, hq8, hqv⟩⟩
  -- the raster is at least 9 columns wide, so the scan's initial x_min = width
  -- sits at or above every data column
  have hw9 : 9 ≤ w := by
    obtain ⟨p, hp, q, hq, hq8, -⟩ := hc8
    have hget : p.2.get? q.1 = some q.2 := List.mem_enum_iff_get?.mp hq
    have hlen : q.1 < p.2.length := by
      rcases h : p.2.get? q.1 with _ | v
      · rw [h] at hget
        exact absurd hget (by simp)
      · exact (List.get?_eq_some.mp h).1
    have hpmem : p.2 ∈ data := by
      have hgetp : data.get? p.1 = some p.2 := List.mem_enum_iff_get?.mp hp
      exact List.get?_mem hgetp
    have := hrect p.2 hpmem
    omega
  have hne : data ≠ [] := by
    obtain ⟨p, hp, -⟩ := h10
    intro h
    rw [h] at hp
    exact List.not_mem_nil p hp
  have hhead : ((data.headD []).length : ℤ) = (w : ℤ) := by
    rcases data with _ | ⟨r, rest⟩
    · exact absurd rfl hne
    · exact congrArg Int.ofNat (hrect r (List.mem_cons_self r rest))
  -- assemble the four scan components
  have hs : pbScan nd data =
      pbFold nd (List.enumFrom 0 data)
        (PBState.mk ((data.headD []).length : ℤ) 0 0 0) := rfl
  have hxmin_le : (pbScan nd data).xMin ≤ 2 := by
    rw [hs]
    exact pbFold_xMin_le nd 2 data 0 _ hexc2
  have hxmin_ge : (2 : ℤ) ≤ (pbScan nd data).xMin := by
    rw [hs]
    refine pbFold_xMin_ge nd 2 data 0 _ (fun p hp c hc => ?_) ?_
    · have := (hcol p hp c hc).2.2.1
      omega
    · show (2 : ℤ) ≤ ((data.headD []).length : ℤ)
      omega
  have hxmax_ge : (8 : ℤ) ≤ (pbScan nd data).xMax := by
    rw [hs]
    exact pbFold_xMax_ge nd 8 data 0 _ hexc8
  have hxmax_le : (pbScan nd data).xMax ≤ 8 := by
    rw [hs]
    refine pbFold_xMax_le nd 8 data 0 _ (fun p hp c hc => ?_) (by norm_num)
    have := (hcol p hp c hc).2.2.2
    omega
  have hymin : (pbScan nd data).yMin = 5 := by
    rw [hs]
    refine pbFold_yMin_first nd 5 (by norm_num) data 0 _ rfl hex5
      (fun p hp hpd => ?_)
    obtain ⟨c, hc⟩ := List.exists_mem_of_ne_nil _ hpd
    exact (hcol p hp c hc).1
  have hymax : (pbScan nd data).yMax = 10 := by
    rw [hs]
    refine pbFold_yMax_exact nd 10 data 0 _ hex10 (fun p hp hpd => ?_)
    obtain ⟨c, hc⟩ := List.exists_mem_of_ne_nil _ hpd
    exact (hcol p hp c hc).2.1
  have hxmin : (pbScan nd data).xMin = 2 := le_antisymm hxmin_le hxmin_ge
  have hxmax : (pbScan nd data).xMax = 8 := le_antisymm hxmax_le hxmax_ge
  show ((pbScan nd data).xMin - 1, (pbScan nd data).xMax + 1,
    (pbScan nd data).yMin - 1, (pbScan nd data).yMax + 1) = (1, 9, 4, 11)
  rw [hxmin, hxmax, hymin, hymax]
  norm_num

/-- Witness: the C9 theorem applied to the concrete 12×10 example grid. -/
theorem min_pixel_bounds_padded_box_witness :
    minPixelBounds 0 boundsExampleGrid = (1, 9, 4, 11) :=
  min_pixel_bounds_padded_box 0 boundsExampleGrid 10
    (by decide) (by decide) (by decide) (by decide) (by decide) (by decide)

/-- C10: the row scan's first-data-row tracker starts at `0` and uses `0` as
its "unset" sentinel, so when row 0 itself holds data (and row 1 does too) the
tracker records row 1 as the first data row: the returned y lower bound is
`1 - 1 = 0` — the rectangle is not padded above row 0 — while the x bounds pad
unconditionally: a column-0 pixel yields `x_min - 1 = -1`, outside the
raster. -/
theorem min_pixel_bounds_top_row_no_padding (nd : ℚ) (data : List (List ℚ))
    (h0 : ∃ p ∈ data.enum, p.1 = 0 ∧ ∃ q ∈ p.2.enum, q.2 ≠ nd)
    (h1 : ∃ p ∈ data.enum, p.1 = 1 ∧ ∃ q ∈ p.2.enum, q.2 ≠ nd)
    (hc0 : ∃ p ∈ data.enum, ∃ q ∈ p.2.enum, q.1 = 0 ∧ q.2 ≠ nd) :
    (minPixelBounds nd data).2.2.1 = 0 ∧ (minPixelBounds nd data).1 = -1 := by
  have henum : data.enum = List.enumFrom 0 data := rfl
  have hexc0 : ∃ p ∈ List.enumFrom 0 data, (0 : ℕ) ∈ rowDataCols nd p.2 := by
    obtain ⟨p, hp, q, hq, hq0, hqv⟩ := hc0
    exact ⟨p, henum ▸ hp, (mem_rowDataCols nd p.2 0).mpr ⟨q, hq, hq0, hqv⟩⟩
  have hs : pbScan nd data =
      pbFold nd (List.enumFrom 0 data)
        (PBState.mk ((data.headD []).length : ℤ) 0 0 0) := rfl
  have hxmin_le : (pbScan nd data).xMin ≤ 0 := by
    rw [hs]
    exact pbFold_xMin_le nd 0 data 0 _ hexc0
  have hxmin_ge : (0 : ℤ) ≤ (pbScan nd data).xMin := by
    rw [hs]
    refine pbFold_xMin_ge nd 0 data 0 _ (fun p hp c hc => by omega) ?_
    show (0 : ℤ) ≤ ((data.headD []).length : ℤ)
    omega
  obtain ⟨p0, hp0, hp00, q0, hq0, hq0v⟩ := h0
  obtain ⟨p1, hp1, hp11, q1, hq1, hq1v⟩ := h1
  have hget0 : data.get? 0 = some p0.2 := by
    have h := List.mem_enum_iff_get?.mp hp0
    rwa [hp00] at h
  have hget1 : data.get? 1 = some p1.2 := by
    have h := List.mem_enum_iff_get?.mp hp1
    rwa [hp11] at h
  rcases data with _ | ⟨r0, t⟩
  · exact absurd hget0 (by simp)
  rcases t with _ | ⟨r1, rest⟩
  · exact absurd hget1 (by simp)
  have e0 : r0 = p0.2 := by
    injection hget0
  have e1 : r1 = p1.2 := by
    injection hget1
  have hr0d : rowDataCols nd r0 ≠ [] := by
    refine (rowDataCols_ne_nil nd r0).mpr ⟨q0, ?_, hq0v⟩
    rw [e0]
    exact hq0
  have hr1d : rowDataCols nd r1 ≠ [] := by
    refine (rowDataCols_ne_nil nd r1).mpr ⟨q1, ?_, hq1v⟩
    rw [e1]
    exact hq1
  rcases hc0r : rowDataCols nd r0 with _ | ⟨c, cs⟩
  · exact absurd hc0r hr0d
  rcases hc1r : rowDataCols nd r1 with _ | ⟨d, ds⟩
  · exact absurd hc1r hr1d
  have hscan : pbScan nd (r0 :: r1 :: rest) =
      pbFold nd (List.enumFrom 2 rest)
        (pbStep nd (pbStep nd (PBState.mk (r0.length : ℤ) 0 0 0) 0 r0)
          1 r1) := rfl
  have hy1 : (pbStep nd (pbStep nd (PBState.mk (r0.length : ℤ) 0 0 0) 0 r0)
      1 r1).yMin = 1 := by
    rw [pbStep_cons nd _ 0 r0 c cs hc0r, pbStep_cons nd _ 1 r1 d ds hc1r]
    simp
  have hymin : (pbScan nd (r0 :: r1 :: rest)).yMin = 1 := by
    rw [hscan, pbFold_yMin_stable nd rest 2 _ (by rw [hy1]; norm_num), hy1]
  constructor
  · show (pbScan nd (r0 :: r1 :: rest)).yMin - 1 = 0
    rw [hymin]
    norm_num
  · show (pbScan nd (r0 :: r1 :: rest)).xMin - 1 = -1
    omega

/-- Witness: the C10 theorem applied to the concrete 4×3 top-row grid, whose
data rows are 0–2 and whose data includes column 0. -/
theorem min_pixel_bounds_top_row_no_padding_witness :
    (minPixelBounds 0 topRowGrid).2.2.1 = 0 ∧
      (minPixelBounds 0 topRowGrid).1 = -1 :=
  min_pixel_bounds_top_row_no_padding 0 topRowGrid
    (by decide) (by decide) (by decide)

theorem crop_year (b : BoundingBox) (l : Layer) (env : Env) (n : ℕ) :
    ((b.crop l env n).1).year = l.year := by
  rw [BoundingBox.crop]

theorem merge_layers_year (env : Env) (y : ℤ) :
    ∀ (g : List Layer), (∀ l ∈ g, l.year = y) →
      ∀ (k : ℕ) (b : Layer) (k' : ℕ),
        merge_layers env g k = .ok (b, k') → b.year = y
  | [], _, k, b, k', h => absurd h (by simp [merge_layers])
  | [l], hy, k, b, k', h => by
    have h' : (Except.ok (l, k) : Except String (Layer × ℕ)) = .ok (b, k') := h
    injection h' with h1
    injection h1 with h2 h3
    rw [← h2]
    exact hy l (List.mem_cons_self l [])
  | l :: l2 :: rest, hy, k, b, k', h => by
    have h' : (Except.ok
        (({ path := k, year := l.year, interpretation := l.interpretation,
            units := l.units,
            raster := env.mosaic ((l :: l2 :: rest).map Layer.raster) } : Layer),
          k + 1) : Except String (Layer × ℕ)) = .ok (b, k') := h
    injection h' with h1
    injection h1 with h2 h3
    rw [← h2]
    exact hy l (List.mem_cons_self l (l2 :: rest))

/-- The interpretation-normalization stage preserves each layer's year. -/
theorem normalizeStep_year (w : List Layer) (n : ℕ) (w3 : List Layer) (n3 : ℕ)
    (h : normalizeStep w n = .ok (w3, n3)) :
    w3.map Layer.year = w.map Layer.year := by
  by_cases hany : (w.any Layer.has_interpretation : Prop)
  · rw [normalizeStep, if_pos hany] at h
    rcases hc : commonInterpretation w with _ | common <;> rw [hc] at h
    · exact absurd h (by simp)
    · have h' : statefulMapE (fun l k => l.reclassify common 0 k) w n
          = .ok (w3, n3) := h
      exact statefulMapE_fst_map _ Layer.year Layer.year w
        (fun a _ k b k' hr => (reclassify_ok a common 0 k b k' hr).2.1)
        n w3 n3 h'
  · rw [normalizeStep, if_neg hany] at h
    have h' : ((w, n) : List Layer × ℕ) = (w3, n3) := by injection h
    injection h' with h2 h3
    rw [← h2]

/-- The frame-list contract of `render`, abstracted over the two halves of the
output: `A` is the per-merged-year half, whose years are exactly the distinct
source years inside the requested range, and `B` is the bare-background half,
one frame for each requested year no source layer covers. -/
theorem frames_spec_of_parts (allLayers : List Layer) (sy ey : ℤ)
    (A B : List Frame) (P : ℕ) (S : ℚ)
    (hA : A.map Frame.year = dedupFirst
      ((allLayers.filter (fun l => l.year ∈ yearRange sy ey)).map Layer.year))
    (hB : B = ((yearRange sy ey).filter
      (fun y => y ∉ dedupFirst (allLayers.map Layer.year))).map
        (fun y => Frame.mk y P S)) :
    (∀ y ∈ yearRange sy ey,
      ((A ++ B).filter (fun f => f.year = y)).length = 1) ∧
    (∀ f ∈ A ++ B, f.year ∈ yearRange sy ey) ∧
    (∀ y ∈ yearRange sy ey, (∀ l ∈ allLayers, l.year ≠ y) →
      ∀ f ∈ A ++ B, f.year = y → f.path = P ∧ f.scale = S) := by
  have hmemA : ∀ f ∈ A, ∃ l ∈ allLayers, l.year = f.year ∧
      f.year ∈ yearRange sy ey := by
    intro f hf
    have h1 : f.year ∈ A.map Frame.year := List.mem_map_of_mem Frame.year hf
    rw [hA, mem_dedupFirst] at h1
    obtain ⟨l, hl, hly⟩ := List.mem_map.mp h1
    have hl' := List.mem_filter.mp hl
    exact ⟨l, hl'.1, hly, hly ▸ of_decide_eq_true hl'.2⟩
  have hmemB : ∀ f ∈ B, ∃ y, f = Frame.mk y P S ∧ y ∈ yearRange sy ey ∧
      y ∉ dedupFirst (allLayers.map Layer.year) := by
    intro f hf
    rw [hB] at hf
    obtain ⟨y, hy, rfl⟩ := List.mem_map.mp hf
    have hy' := List.mem_filter.mp hy
    exact ⟨y, rfl, hy'.1, of_decide_eq_true hy'.2⟩
  refine ⟨?_, ?_, ?_⟩
  · intro y hy
    rw [List.filter_append, List.length_append,
      length_filter_eq_count_map Frame.year y A,
      length_filter_eq_count_map Frame.year y B]
    by_cases hmem : y ∈ allLayers.map Layer.year
    · have hyA : y ∈ A.map Frame.year := by
        rw [hA, mem_dedupFirst]
        obtain ⟨l, hl, hly⟩ := List.mem_map.mp hmem
        exact List.mem_map.mpr ⟨l, List.mem_filter.mpr
          ⟨hl, decide_eq_true (hly ▸ hy)⟩, hly⟩
      have hnodupA : (A.map Frame.year).Nodup := by
        rw [hA]
        exact nodup_dedupFirst _
      have hyB : y ∉ B.map Frame.year := by
        intro hc
        obtain ⟨f, hf, hfy⟩ := List.mem_map.mp hc
        obtain ⟨y', hfeq, -, hy'3⟩ := hmemB f hf
        refine hy'3 ?_
        rw [mem_dedupFirst]
        have : y' = y := by rw [← hfy, hfeq]
        exact this ▸ hmem
      rw [List.count_eq_one_of_mem hnodupA hyA,
        List.count_eq_zero_of_not_mem hyB]
    · have hyA : y ∉ A.map Frame.year := by
        rw [hA, mem_dedupFirst]
        intro hc
        obtain ⟨l, hl, hly⟩ := List.mem_map.mp hc
        exact hmem (List.mem_map.mpr ⟨l, (List.mem_filter.mp hl).1, hly⟩)
      have hyB : (B.map Frame.year).count y = 1 := by
        rw [hB, List.map_map]
        have hcomp : (Frame.year ∘ fun y => Frame.mk y P S) = id := rfl
        rw [hcomp, List.map_id]
        refine List.count_eq_one_of_mem ((nodup_yearRange sy ey).filter _) ?_
        refine List.mem_filter.mpr ⟨hy, decide_eq_true ?_⟩
        rw [mem_dedupFirst]
        exact hmem
      rw [List.count_eq_zero_of_not_mem hyA, hyB]
  · intro f hf
    rcases List.mem_append.mp hf with hf | hf
    · obtain ⟨l, -, -, h⟩ := hmemA f hf
      exact h
    · obtain ⟨y, rfl, h2, -⟩ := hmemB f hf
      exact h2
  · intro y hy hno f hf hfy
    rcases List.mem_append.mp hf with hf | hf
    · obtain ⟨l, hl, hly, -⟩ := hmemA f hf
      exact absurd (hfy ▸ hly) (hno l hl)
    · obtain ⟨y', rfl, -, -⟩ := hmemB f hf
      exact ⟨rfl, rfl⟩

/-- C1 counterexample: with no bounding box and a requested range disjoint
from every source layer's year, `render` raises `IndexError: list index out of
range` (`working_layers[0]` on the empty filtered selection) instead of
returning one background frame per requested year. -/
theorem render_disjoint_range_without_bbox_raises :
    collection2001.render none (some 2005) (some 2007) Units.TcPerHa idEnv 100
      = .error "IndexError: list index out of range" := rfl

/-- C1 (amended): whenever `render` with an explicit truthy year range
returns at all, the frame list has exactly one frame per requested year, every
frame's year lies in the requested range, and each requested year covered by
no source layer gets a bare copy of the background frame (same image artifact
and scale); a range disjoint from every source layer with no bounding box
instead raises `IndexError` before producing frames. -/
theorem render_one_frame_per_requested_year (self : LayerCollection)
    (bb : Option BoundingBox) (sy ey : ℤ) (units : Units) (env : Env)
    (next : ℕ) (out : RenderOutput) (hsy : sy ≠ 0) (hey : ey ≠ 0)
    (hok : self.renderWithBg bb (some sy) (some ey) units env next
      = .ok out) :
    (∀ y ∈ yearRange sy ey,
      (out.frames.filter (fun f => f.year = y)).length = 1) ∧
    (∀ f ∈ out.frames, f.year ∈ yearRange sy ey) ∧
    (∀ y ∈ yearRange sy ey, (∀ l ∈ self.layers, l.year ≠ y) →
      ∀ f ∈ out.frames, f.year = y →
        f.path = out.background.path ∧ f.scale = out.background.scale) := by
  have hT1 : intTruthy (some sy) = true := by simp [intTruthy, hsy]
  have hT2 : intTruthy (some ey) = true := by simp [intTruthy, hey]
  rcases bb with _ | bbox
  · simp only [LayerCollection.renderWithBg] at hok
    rw [if_pos ⟨hT1, hT2⟩] at hok
    split at hok
    · exact Except.noConfusion hok
    rename_i w3 n3 hN
    split at hok
    · exact Except.noConfusion hok
    rename_i bgl hbgl
    split at hok
    · exact Except.noConfusion hok
    rename_i merged n6 hM
    injection hok with h
    subst h
    dsimp only
    refine frames_spec_of_parts self.layers sy ey _ _ _ _ ?_ rfl
    refine Eq.trans (statefulMap_fst_map _ Frame.year Frame.year
      (fun a k => rfl) _ _) ?_
    refine Eq.trans (statefulMap_fst_map _ Frame.year Layer.year
      (fun a k => rfl) _ _) ?_
    refine Eq.trans (statefulMapE_fst_map _ Layer.year Prod.fst _
      ?_ _ _ _ hM) ?_
    · intro g hg k b k' hmerge
      obtain ⟨hfil, -⟩ := groupByYear_mem _ g hg
      refine merge_layers_year env g.1 g.2 ?_ k b k' hmerge
      intro l hl
      rw [hfil] at hl
      exact of_decide_eq_true (List.mem_filter.mp hl).2
    rw [groupByYear_map_fst]
    refine congrArg dedupFirst ?_
    rw [normalizeStep_year _ _ _ _ hN]
    exact statefulMap_fst_map _ Layer.year Layer.year
      (fun a k => convert_units_result_year a units env k) _ _
  · simp only [LayerCollection.renderWithBg] at hok
    rw [if_pos ⟨hT1, hT2⟩] at hok
    split at hok
    · exact Except.noConfusion hok
    rename_i w3 n3 hN
    split at hok
    · exact Except.noConfusion hok
    rename_i merged n6 hM
    injection hok with h
    subst h
    dsimp only
    refine frames_spec_of_parts self.layers sy ey _ _ _ _ ?_ rfl
    refine Eq.trans (statefulMap_fst_map _ Frame.year Frame.year
      (fun a k => rfl) _ _) ?_
    refine Eq.trans (statefulMap_fst_map _ Frame.year Layer.year
      (fun a k => rfl) _ _) ?_
    refine Eq.trans (statefulMapE_fst_map _ Layer.year Prod.fst _
      ?_ _ _ _ hM) ?_
    · intro g hg k b k' hmerge
      obtain ⟨hfil, -⟩ := groupByYear_mem _ g hg
      refine merge_layers_year env g.1 g.2 ?_ k b k' hmerge
      intro l hl
      rw [hfil] at hl
      exact of_decide_eq_true (List.mem_filter.mp hl).2
    rw [groupByYear_map_fst]
    refine congrArg dedupFirst ?_
    rw [normalizeStep_year _ _ _ _ hN]
    refine Eq.trans (statefulMap_fst_map _ Layer.year Layer.year
      (fun a k => convert_units_result_year a units env k) _ _) ?_
    exact statefulMap_fst_map _ Layer.year Layer.year
      (fun a k => crop_year bbox a env k) _ _

/-- Witness: the amended C1 theorem at the 2001-only collection rendered over
2000–2003, as in the claim's example. -/
theorem render_one_frame_per_requested_year_witness :
    (∀ y ∈ yearRange 2000 2003,
      (render2001out.frames.filter (fun f => f.year = y)).length = 1) ∧
    (∀ f ∈ render2001out.frames, f.year ∈ yearRange 2000 2003) ∧
    (∀ y ∈ yearRange 2000 2003, (∀ l ∈ collection2001.layers, l.year ≠ y) →
      ∀ f ∈ render2001out.frames, f.year = y →
        f.path = render2001out.background.path ∧
        f.scale = render2001out.background.scale) :=
  render_one_frame_per_requested_year collection2001 none 2000 2003
    Units.TcPerHa idEnv 100 render2001out (by decide) (by decide) rfl

/-- Witness for the amended C2 theorem at a single interpreted layer. -/
theorem normalize_step_requires_all_interpreted_witness :
    ((∃ l ∈ [interpretedLayer], l.interpretation = none) →
      normalizeStep [interpretedLayer] 50 =
        .error "AttributeError: NoneType has no attribute values") ∧
    ((∀ l ∈ [interpretedLayer], l.interpretation ≠ none) →
      ∃ common, commonInterpretation [interpretedLayer] = some common ∧
        common = (sortedUnique ([interpretedLayer].flatMap
          (fun l => interpLabels (l.interpretation.getD [])))).enum.map
            (fun p => (((p.1 + 1 : ℕ) : ℚ), p.2)) ∧
        normalizeStep [interpretedLayer] 50 =
          statefulMapE (fun l m => l.reclassify common 0 m)
            [interpretedLayer] 50) :=
  normalize_step_requires_all_interpreted [interpretedLayer] 50 (by decide)

end GcbmAnimation
